import Mathlib

/-!
Shallow embedding of the realpolitik worker's article deduplication,
incident grouping and event-merging engine (src/worker/main.py and
src/worker/sources/rss_feeds.py), together with theorems settling the
frozen claims about it.

Modelling conventions used throughout:

* ISO-8601 UTC timestamp strings are modelled by their time value, in
  seconds since the epoch, as a rational number.  For timestamps of the
  uniform format the code produces, lexicographic string order agrees
  with time order, and datetime parsing is the identity on the value
  (so the try/except branches around fromisoformat never fire).
* Python float arithmetic is modelled by exact rational arithmetic.
  A comparison of the form sqrt (dx^2 + dy^2) > r is embedded as
  dx^2 + dy^2 > r^2, which is equivalent since both sides of the
  original comparison are nonnegative.
* Content digests (truncated sha256/md5 of a constructed content
  string) are modelled by the content string itself: the digest is a
  deterministic function of the content, so equal contents give equal
  digests, and distinct contents are modelled as distinct digests.
* Python str operations are modelled at the ASCII level (the titles and
  table keys involved are ASCII): lower maps A-Z to a-z, and word
  characters are letters, digits and underscore.
-/

namespace Realpolitik

/-! ### Python string helpers -/

/-- Characters of python's whitespace class: the set recognised by
str.isspace, str.strip and the regex whitespace class. -/
def pyIsSpace (c : Char) : Bool :=
  let v := c.toNat
  (9 ≤ v && v ≤ 13) || v == 32 || (28 ≤ v && v ≤ 31) || v == 0x85 || v == 0xA0 ||
  v == 0x1680 || (0x2000 ≤ v && v ≤ 0x200A) || v == 0x2028 || v == 0x2029 ||
  v == 0x202F || v == 0x205F || v == 0x3000

/-- Python str.strip with no arguments: remove leading and trailing
whitespace. -/
def pyStrip (s : String) : String :=
  String.mk (((s.toList.dropWhile pyIsSpace).reverse.dropWhile pyIsSpace).reverse)

/-- Python substring test: whether pat occurs inside s (the in operator
on strings). -/
def strContains (s pat : String) : Bool :=
  s.toList.tails.any (fun t => pat.toList.isPrefixOf t)

/-! ### Article record

One raw article dict as produced by the RSS layer and consumed by
dedupe_articles and group_by_incident; the fields are the ones the core
actually reads.  The source name sits behind an Option because the
source dict may lack a name key (article["source"].get("name") is None),
which the code treats via falsiness. -/

structure NewsArticle where
  title : String
  description : String
  url : String
  source_name : Option String
  publishedAt : ℚ
deriving DecidableEq

/-! ### Deduplicator (src/worker/sources/rss_feeds.py) -/

/-- rss_feeds._normalize_url: strip the query string (everything from the
first question mark on). -/
def normalize_url (url : String) : String :=
  url.takeWhile (fun c => c != '?')

/-- rss_feeds._STOP_WORDS, in source order. -/
def STOP_WORDS : List String :=
  ["the", "a", "an", "and", "or", "but", "in", "on", "at", "to", "for",
   "of", "with", "by", "from", "as", "is", "was", "are", "were", "been",
   "be", "have", "has", "had", "do", "does", "did", "will", "would",
   "could", "should", "may", "might", "must", "shall", "can", "need",
   "says", "said", "say", "tells", "told", "report", "reports", "reported",
   "news", "breaking", "update", "latest", "new", "after", "before"]

/-- rss_feeds._WORD_NORMALIZE, in source order. -/
def WORD_NORMALIZE : List (String × String) :=
  [("ukraine", "ukraine"), ("ukrainian", "ukraine"), ("ukrainians", "ukraine"), ("kyiv", "ukraine"),
   ("russia", "russia"), ("russian", "russia"), ("russians", "russia"), ("moscow", "russia"), ("putin", "russia"),
   ("israel", "israel"), ("israeli", "israel"), ("israelis", "israel"), ("idf", "israel"),
   ("gaza", "palestine"), ("palestinian", "palestine"), ("palestinians", "palestine"), ("hamas", "palestine"),
   ("china", "china"), ("chinese", "china"), ("beijing", "china"),
   ("iran", "iran"), ("iranian", "iran"), ("tehran", "iran"),
   ("syria", "syria"), ("syrian", "syria"), ("damascus", "syria"),
   ("attack", "attack"), ("attacks", "attack"), ("attacked", "attack"),
   ("strike", "strike"), ("strikes", "strike"), ("struck", "strike"),
   ("kill", "kill"), ("kills", "kill"), ("killed", "kill"), ("killing", "kill"),
   ("force", "force"), ("forces", "force"),
   ("troop", "troop"), ("troops", "troop"),
   ("missile", "missile"), ("missiles", "missile"), ("rocket", "missile"), ("rockets", "missile"),
   ("bomb", "bomb"), ("bombs", "bomb"), ("bombing", "bomb"), ("bombed", "bomb"),
   ("protest", "protest"), ("protests", "protest"), ("protester", "protest"), ("protesters", "protest")]

/-- Python word character (ASCII model of the regex word class). -/
def isWordChar (c : Char) : Bool :=
  c.isAlpha || c.isDigit || c == '_'

/-- Maximal runs of word characters in a character list (accumulator
carries the current run reversed). -/
def wordRunsAux : List Char → List Char → List (List Char)
  | [], acc => if acc.isEmpty then [] else [acc.reverse]
  | c :: cs, acc =>
    if isWordChar c then wordRunsAux cs (c :: acc)
    else if acc.isEmpty then wordRunsAux cs []
    else acc.reverse :: wordRunsAux cs []

/-- The matches of the title-tokenizing regex: three-or-more letters
bounded by word boundaries, applied to the lowercased title.  A match
must start and end at a word boundary, so the matches are exactly the
maximal word-character runs that consist solely of letters and have
length at least three. -/
def findWords (title : String) : List String :=
  ((wordRunsAux title.toLower.toList []).map String.mk).filter
    (fun w => 3 ≤ w.length && w.toList.all Char.isAlpha)

/-- rss_feeds._extract_keywords: tokenize the lowercased title, drop stop
words, apply the variant-normalization map, and collect the result as a
set (the source returns a frozenset). -/
def extract_keywords (title : String) : Finset String :=
  (((findWords title).filter (fun w => !(STOP_WORDS.contains w))).map
    (fun w => (WORD_NORMALIZE.lookup w).getD w)).toFinset

/-- rss_feeds._title_hash, modelled by the digest's preimage: the sorted
keywords joined by single spaces (the source md5-hashes this string and
truncates; the digest is a deterministic function of this content). -/
def title_hash (title : String) : String :=
  String.intercalate " " ((extract_keywords title).sort (fun a b => a ≤ b))

/-- rss_feeds.titles_similar: Jaccard similarity of the two keyword sets
compared against the threshold; empty keyword sets are never similar. -/
def titles_similar (title_a title_b : String) (threshold : ℚ) : Bool :=
  let kw_a := extract_keywords title_a
  let kw_b := extract_keywords title_b
  if kw_a = ∅ ∨ kw_b = ∅ then false
  else
    let intersection := (kw_a ∩ kw_b).card
    let union := (kw_a ∪ kw_b).card
    let similarity : ℚ := if 0 < union then (intersection : ℚ) / union else 0
    decide (threshold ≤ similarity)

/-- The layer-3 test of dedupe_articles for one previously kept keyword
set: positive union and Jaccard similarity at least the threshold. -/
def jaccardGE (keywords seen_kw : Finset String) (threshold : ℚ) : Bool :=
  let intersection := (keywords ∩ seen_kw).card
  let union := (keywords ∪ seen_kw).card
  0 < union && decide (threshold ≤ (intersection : ℚ) / union)

/-- The loop state of rss_feeds.dedupe_articles.  The python sets of seen
urls and title hashes are modelled as lists used only through
membership. -/
structure DedupeState where
  seen_urls : List String
  seen_title_hashes : List String
  seen_keywords : List (Finset String)
  unique : List NewsArticle
deriving DecidableEq

/-- One iteration of the dedupe_articles loop: layer 1 (normalized url),
layer 2 (title-keyword hash), layer 3 (Jaccard similarity against every
previously kept keyword set, skipped for an empty keyword set).  Only a
kept article extends the seen structures. -/
def dedupeStep (threshold : ℚ) (st : DedupeState) (article : NewsArticle) : DedupeState :=
  let url_normalized := normalize_url article.url
  if url_normalized ∈ st.seen_urls then st
  else
    let title_h := title_hash article.title
    if title_h ∈ st.seen_title_hashes then st
    else
      let keywords := extract_keywords article.title
      if keywords ≠ ∅ then
        if st.seen_keywords.any (fun seen_kw => jaccardGE keywords seen_kw threshold) then st
        else
          { seen_urls := st.seen_urls ++ [url_normalized],
            seen_title_hashes := st.seen_title_hashes ++ [title_h],
            seen_keywords := st.seen_keywords ++ [keywords],
            unique := st.unique ++ [article] }
      else
        { seen_urls := st.seen_urls ++ [url_normalized],
          seen_title_hashes := st.seen_title_hashes ++ [title_h],
          seen_keywords := st.seen_keywords,
          unique := st.unique ++ [article] }

/-- rss_feeds.dedupe_articles: fold the three-layer filter over the batch
and return the kept articles (the source default threshold is 0.6). -/
def dedupe_articles (articles : List NewsArticle) (threshold : ℚ) : List NewsArticle :=
  (articles.foldl (dedupeStep threshold) (DedupeState.mk [] [] [] [])).unique

/-- The duplicate decision of one dedupe_articles iteration, expressed as
a predicate on the list of previously kept articles (the loop state is a
function of that list): layer 1 url match, layer 2 title-hash match, or
layer 3 keyword similarity against some previously kept article with a
nonempty keyword set. -/
def IsDupOf (threshold : ℚ) (kept : List NewsArticle) (a : NewsArticle) : Prop :=
  normalize_url a.url ∈ kept.map (fun b => normalize_url b.url) ∨
  title_hash a.title ∈ kept.map (fun b => title_hash b.title) ∨
  (extract_keywords a.title ≠ ∅ ∧
    ∃ b ∈ kept, extract_keywords b.title ≠ ∅ ∧
      jaccardGE (extract_keywords a.title) (extract_keywords b.title) threshold = true)

instance (threshold : ℚ) (kept : List NewsArticle) (a : NewsArticle) :
    Decidable (IsDupOf threshold kept a) := by
  unfold IsDupOf
  exact inferInstance

/-- Recursive form of the dedupe_articles loop: kept is the accumulated
list of previously kept articles, and the result is the further kept
articles. -/
def dedupeFrom (threshold : ℚ) (kept : List NewsArticle) : List NewsArticle → List NewsArticle
  | [] => []
  | a :: rest =>
    if IsDupOf threshold kept a then dedupeFrom threshold kept rest
    else a :: dedupeFrom threshold (kept ++ [a]) rest

/-- The dedupe loop state determined by a list of kept articles. -/
def stateOf (kept : List NewsArticle) : DedupeState :=
  { seen_urls := kept.map (fun b => normalize_url b.url),
    seen_title_hashes := kept.map (fun b => title_hash b.title),
    seen_keywords := (kept.filter (fun b => decide (extract_keywords b.title ≠ ∅))).map
      (fun b => extract_keywords b.title),
    unique := kept }

/-- Each article of the list is not a duplicate of the kept prefix
accumulated before it (the second list extends the first one by one). -/
def FreshFrom (threshold : ℚ) : List NewsArticle → List NewsArticle → Prop
  | _, [] => True
  | kept, a :: rest => ¬ IsDupOf threshold kept a ∧ FreshFrom threshold (kept ++ [a]) rest

theorem dedupeStep_stateOf (threshold : ℚ) (kept : List NewsArticle) (a : NewsArticle) :
    dedupeStep threshold (stateOf kept) a =
      if IsDupOf threshold kept a then stateOf kept else stateOf (kept ++ [a]) := by
  by_cases h1 : normalize_url a.url ∈ kept.map (fun b => normalize_url b.url)
  · have hd : IsDupOf threshold kept a := Or.inl h1
    simp [dedupeStep, stateOf, h1, hd]
  · by_cases h2 : title_hash a.title ∈ kept.map (fun b => title_hash b.title)
    · have hd : IsDupOf threshold kept a := Or.inr (Or.inl h2)
      simp [dedupeStep, stateOf, h1, h2, hd]
    · by_cases h3 : extract_keywords a.title = ∅
      · have hd : ¬ IsDupOf threshold kept a := by
          rintro (hc | hc | ⟨hc, -⟩)
          · exact h1 hc
          · exact h2 hc
          · exact hc h3
        simp [dedupeStep, stateOf, h1, h2, h3, hd, List.filter_append, List.map_append]
      · by_cases h4 : ∃ b ∈ kept, extract_keywords b.title ≠ ∅ ∧
          jaccardGE (extract_keywords a.title) (extract_keywords b.title) threshold = true
        · have hd : IsDupOf threshold kept a := Or.inr (Or.inr ⟨h3, h4⟩)
          simp only [dedupeStep, stateOf, if_pos hd]
          simp [h1, h2, h3]
          exact h4
        · have hd : ¬ IsDupOf threshold kept a := by
            rintro (hc | hc | ⟨-, hc⟩)
            · exact h1 hc
            · exact h2 hc
            · exact h4 hc
          simp only [dedupeStep, stateOf, if_neg hd]
          simp [h1, h2, h3, List.filter_append, List.map_append]
          intro b hb hb1
          rw [Bool.eq_false_iff]
          exact fun hb2 => h4 ⟨b, hb, hb1, hb2⟩

theorem foldl_dedupeStep_stateOf (threshold : ℚ) (xs : List NewsArticle) :
    ∀ kept : List NewsArticle,
      (xs.foldl (dedupeStep threshold) (stateOf kept)).unique =
        kept ++ dedupeFrom threshold kept xs := by
  induction xs with
  | nil => intro kept; simp [dedupeFrom, stateOf]
  | cons a rest ih =>
    intro kept
    by_cases h : IsDupOf threshold kept a
    · simp only [List.foldl_cons, dedupeStep_stateOf, h, if_true, ih, dedupeFrom, if_pos h]
    · simp only [List.foldl_cons, dedupeStep_stateOf, h, if_false, ih, dedupeFrom, if_neg h]
      simp

theorem dedupe_articles_eq_dedupeFrom (threshold : ℚ) (xs : List NewsArticle) :
    dedupe_articles xs threshold = dedupeFrom threshold [] xs := by
  have h0 : stateOf [] = DedupeState.mk [] [] [] [] := rfl
  have := foldl_dedupeStep_stateOf threshold xs []
  rw [h0] at this
  simpa [dedupe_articles] using this

theorem dedupeFrom_sublist (threshold : ℚ) (xs : List NewsArticle) :
    ∀ kept : List NewsArticle, (dedupeFrom threshold kept xs).Sublist xs := by
  induction xs with
  | nil => intro kept; simp [dedupeFrom]
  | cons a rest ih =>
    intro kept
    by_cases h : IsDupOf threshold kept a
    · simpa [dedupeFrom, if_pos h] using (ih kept).cons a
    · simpa [dedupeFrom, if_neg h] using (ih (kept ++ [a])).cons₂ a

theorem freshFrom_dedupeFrom (threshold : ℚ) (xs : List NewsArticle) :
    ∀ kept : List NewsArticle, FreshFrom threshold kept (dedupeFrom threshold kept xs) := by
  induction xs with
  | nil => intro kept; simp [dedupeFrom, FreshFrom]
  | cons a rest ih =>
    intro kept
    by_cases h : IsDupOf threshold kept a
    · simpa [dedupeFrom, if_pos h] using ih kept
    · simp only [dedupeFrom, if_neg h]
      exact ⟨h, ih (kept ++ [a])⟩

theorem dedupeFrom_of_freshFrom (threshold : ℚ) (u : List NewsArticle) :
    ∀ kept : List NewsArticle, FreshFrom threshold kept u → dedupeFrom threshold kept u = u := by
  induction u with
  | nil => intro kept _; simp [dedupeFrom]
  | cons a rest ih =>
    intro kept hf
    obtain ⟨h1, h2⟩ := hf
    simp only [dedupeFrom, if_neg h1]
    rw [ih (kept ++ [a]) h2]

/-- Claim C7: dedupe_articles is order-preserving, in that the kept
articles form a subsequence of the input and no kept article is a
duplicate of an earlier kept one (so among a set of duplicates the
earliest survivor is the one kept), and idempotent: applying it to its
own output returns that output unchanged. -/
theorem dedupe_articles_order_preserving_idempotent (threshold : ℚ) (xs : List NewsArticle) :
    (dedupe_articles xs threshold).Sublist xs ∧
    FreshFrom threshold [] (dedupe_articles xs threshold) ∧
    dedupe_articles (dedupe_articles xs threshold) threshold = dedupe_articles xs threshold := by
  rw [dedupe_articles_eq_dedupeFrom]
  refine ⟨dedupeFrom_sublist threshold xs [], freshFrom_dedupeFrom threshold xs [], ?_⟩
  rw [dedupe_articles_eq_dedupeFrom]
  exact dedupeFrom_of_freshFrom threshold _ [] (freshFrom_dedupeFrom threshold xs [])

/-- Claim C8: the titles about a Russia-Ukraine border attack written
with morphological variants normalize to the same keyword set, are
similar at threshold 0.5, and dedupe_articles at the default threshold
0.6 keeps only the first of two articles carrying them (the second is
caught by the layer-2 title hash). -/
theorem russia_ukraine_variant_titles_dedupe :
    extract_keywords "Russia attack Ukraine border forces military" =
      extract_keywords "Russian attack Ukrainian border forces military" ∧
    titles_similar "Russia attack Ukraine border forces military"
      "Russian attack Ukrainian border forces military" (1 / 2) = true ∧
    dedupe_articles
      [NewsArticle.mk "Russia attack Ukraine border forces military" "d1"
        "http://example.test/one" (some "Outlet A") 0,
       NewsArticle.mk "Russian attack Ukrainian border forces military" "d2"
        "http://example.test/two" (some "Outlet B") 3600] (3 / 5) =
      [NewsArticle.mk "Russia attack Ukraine border forces military" "d1"
        "http://example.test/one" (some "Outlet A") 0] := by
  with_unfolding_all decide

/-- Claim C10: when both titles yield an empty keyword set, both hash to
the digest of the empty keyword string, so the layer-2 title-hash check
drops the second article even when titles and urls are unrelated. -/
theorem empty_keyword_titles_collapse (threshold : ℚ) (a b : NewsArticle)
    (ha : extract_keywords a.title = ∅) (hb : extract_keywords b.title = ∅) :
    dedupe_articles [a, b] threshold = [a] := by
  have hta : title_hash a.title = "" := by
    rw [title_hash, ha, Finset.sort_empty]
    rfl
  have htb : title_hash b.title = "" := by
    rw [title_hash, hb, Finset.sort_empty]
    rfl
  have hnd : ¬ IsDupOf threshold [] a := by
    rintro (hc | hc | ⟨hc, -⟩) <;> simp_all
  have hd : IsDupOf threshold [a] b := Or.inr (Or.inl (by simp [hta, htb]))
  rw [dedupe_articles_eq_dedupeFrom]
  simp [dedupeFrom, hnd, hd]

/-- Witness for the empty-keyword collapse: two concrete unrelated
articles whose titles consist only of stop words and short words. -/
theorem empty_keyword_titles_collapse_witness :
    extract_keywords "to the" = ∅ ∧
    extract_keywords "is at of" = ∅ ∧
    dedupe_articles
      [NewsArticle.mk "to the" "d1" "http://example.test/a" (some "X") 0,
       NewsArticle.mk "is at of" "d2" "http://example.test/b" (some "Y") 100] (3 / 5) =
      [NewsArticle.mk "to the" "d1" "http://example.test/a" (some "X") 0] := by
  refine ⟨by with_unfolding_all decide, by with_unfolding_all decide, ?_⟩
  exact empty_keyword_titles_collapse (3 / 5)
    (NewsArticle.mk "to the" "d1" "http://example.test/a" (some "X") 0)
    (NewsArticle.mk "is at of" "d2" "http://example.test/b" (some "Y") 100)
    (by with_unfolding_all decide) (by with_unfolding_all decide)

/-! ### Source credibility (src/worker/main.py, SOURCE_CREDIBILITY and
get_source_credibility) -/

/-- main.SOURCE_CREDIBILITY, in source (insertion) order; iteration order
matters for the partial-match scan. -/
def SOURCE_CREDIBILITY : List (String × ℤ) :=
  [("associated press", 3), ("ap", 3), ("ap news", 3),
   ("reuters", 3),
   ("afp", 3), ("agence france-presse", 3),
   ("bbc", 3), ("bbc news", 3), ("bbc world", 3),
   ("al jazeera", 3), ("al jazeera english", 3),
   ("npr", 3),
   ("pbs", 3), ("pbs newshour", 3),
   ("the guardian", 2), ("guardian", 2),
   ("new york times", 2), ("nyt", 2), ("ny times", 2),
   ("washington post", 2),
   ("the economist", 2), ("economist", 2),
   ("financial times", 2), ("ft", 2),
   ("wall street journal", 2), ("wsj", 2),
   ("deutsche welle", 2), ("dw", 2),
   ("france24", 2), ("france 24", 2),
   ("abc news", 2),
   ("cbs news", 2),
   ("nbc news", 2),
   ("cnn", 2),
   ("politico", 2),
   ("the hill", 2),
   ("axios", 2),
   ("south china morning post", 1), ("scmp", 1),
   ("times of israel", 1),
   ("the hindu", 1),
   ("kyiv independent", 1),
   ("jerusalem post", 1),
   ("haaretz", 1),
   ("japan times", 1),
   ("straits times", 1),
   ("the irish times", 1),
   ("yahoo news", 1), ("yahoo", 1),
   ("business insider", 1),
   ("new york magazine", 1),
   ("the new yorker", 1),
   ("the new republic", 1),
   ("foreign policy", 1),
   ("foreign affairs", 1),
   ("sputnik", -1), ("sputnikglobe", -1), ("sputnik news", -1),
   ("rt", -1), ("russia today", -1),
   ("global times", -1),
   ("press tv", -1),
   ("activistpost", -1),
   ("zerohedge", -1),
   ("infowars", -1),
   ("natural news", -1),
   ("the gateway pundit", -1),
   ("breitbart", -1),
   ("yahoo entertainment", -1),
   ("dalenareporters", -1),
   ("freerepublic", -1)]

/-- main.get_source_credibility: falsy name gives 0; exact
case-insensitive (lowercased, stripped) table match first; otherwise the
first table entry related by substring containment in either direction;
otherwise 0. -/
def get_source_credibility (source_name : String) : ℤ :=
  if source_name = "" then 0
  else
    let name_lower := pyStrip source_name.toLower
    match SOURCE_CREDIBILITY.lookup name_lower with
    | some score => score
    | none =>
      match SOURCE_CREDIBILITY.find?
          (fun kv => strContains name_lower kv.1 || strContains kv.1 name_lower) with
      | some kv => kv.2
      | none => 0

/-- main.generate_source_id, modelled by the digest's preimage content
string (the source sha256-hashes this and truncates to 16 hex digits). -/
def generate_source_id (title : String) (source_url : String) : String :=
  (if title = "" then "" else pyStrip title.toLower) ++ "|" ++ source_url

/-! ### Incident grouping (src/worker/main.py) -/

/-- main.EnrichedArticle: the classifier output fields the grouping
engine reads (coordinates filled by the geocoding step). -/
structure EnrichedArticle where
  location_name : String
  category : String
  severity : ℤ
  summary : String
  is_geopolitical : Bool
  latitude : ℚ
  longitude : ℚ
deriving DecidableEq

/-- main.EventSource: one news source of an incident or event. -/
structure EventSource where
  id : String
  headline : String
  summary : String
  source_name : String
  source_url : String
  timestamp : ℚ
deriving DecidableEq

/-- main.GROUPING_DISTANCE_DEGREES. -/
def GROUPING_DISTANCE_DEGREES : List (String × ℚ) :=
  [("MILITARY", 1/10), ("DIPLOMACY", 1/2), ("ECONOMY", 1/2), ("UNREST", 3/10)]

/-- main.GROUPING_DISTANCE_DEFAULT. -/
def GROUPING_DISTANCE_DEFAULT : ℚ := 1/2

/-- main.GROUPING_TIME_HOURS. -/
def GROUPING_TIME_HOURS : ℚ := 12

/-- main.get_grouping_distance. -/
def get_grouping_distance (category : String) : ℚ :=
  (GROUPING_DISTANCE_DEGREES.lookup category).getD GROUPING_DISTANCE_DEFAULT

/-- main.IncidentGroup: a transient cluster of sources for one run. -/
structure IncidentGroup where
  category : String
  lng : ℚ
  lat : ℚ
  location_name : String
  sources : List EventSource
  severities : List ℤ
deriving DecidableEq

/-- IncidentGroup.add_source: append the source and its severity and move
the centroid to the incremental running mean. -/
def IncidentGroup.add_source (g : IncidentGroup) (source : EventSource) (severity : ℤ)
    (lng lat : ℚ) : IncidentGroup :=
  let sources := g.sources ++ [source]
  let n : ℚ := (sources.length : ℚ)
  { g with
    sources := sources,
    severities := g.severities ++ [severity],
    lng := (g.lng * (n - 1) + lng) / n,
    lat := (g.lat * (n - 1) + lat) / n }

/-- IncidentGroup.matches: same category, centroid within the
category-specific radius (squared-distance form of the source's
sqrt-comparison), and within 12 hours of at least one existing source. -/
def IncidentGroup.matches (g : IncidentGroup) (category : String) (lng lat : ℚ)
    (timestamp : ℚ) : Bool :=
  if g.sources.isEmpty then false
  else if g.category ≠ category then false
  else if (g.lng - lng) ^ 2 + (g.lat - lat) ^ 2 > (get_grouping_distance g.category) ^ 2 then
    false
  else
    g.sources.any (fun s => decide (|timestamp - s.timestamp| / 3600 ≤ GROUPING_TIME_HOURS))

/-- IncidentGroup.get_max_severity: maximum source severity, 5 when there
are none. -/
def IncidentGroup.get_max_severity (g : IncidentGroup) : ℤ :=
  match g.severities with
  | [] => 5
  | s :: rest => rest.foldl max s

/-- Python falsy-or: replace None or the empty string by "Unknown". -/
def orUnknown : Option String → String
  | none => "Unknown"
  | some s => if s = "" then "Unknown" else s

/-- The EventSource built for one article inside group_by_incident. -/
def mkEventSource (article : NewsArticle) (enriched : EnrichedArticle) : EventSource :=
  { id := generate_source_id article.title article.url,
    headline := article.title,
    summary := enriched.summary,
    source_name := orUnknown article.source_name,
    source_url := article.url,
    timestamp := article.publishedAt }

/-- The scan over existing groups inside group_by_incident: attach the
source to the first group whose matches test succeeds, returning none
when no group matches. -/
def addFirstMatch (category : String) (lng lat timestamp : ℚ) (source : EventSource)
    (severity : ℤ) : List IncidentGroup → Option (List IncidentGroup)
  | [] => none
  | g :: gs =>
    if g.matches category lng lat timestamp then
      some (g.add_source source severity lng lat :: gs)
    else
      (addFirstMatch category lng lat timestamp source severity gs).map (fun gs2 => g :: gs2)

/-- One iteration of the group_by_incident loop: drop the article when
its source has negative credibility, otherwise attach it to the first
matching group or open a new group with it as sole source. -/
def groupStep (groups : List IncidentGroup) (p : NewsArticle × EnrichedArticle) :
    List IncidentGroup :=
  let article := p.1
  let enriched := p.2
  let credibility := get_source_credibility (article.source_name.getD "")
  if credibility < 0 then groups
  else
    let source := mkEventSource article enriched
    match addFirstMatch enriched.category enriched.longitude enriched.latitude
        article.publishedAt source enriched.severity groups with
    | some groups2 => groups2
    | none =>
      groups ++
        [(IncidentGroup.mk enriched.category enriched.longitude enriched.latitude
            enriched.location_name [] []).add_source source enriched.severity
              enriched.longitude enriched.latitude]

/-- main.group_by_incident: fold the grouping step over the batch in
input order. -/
def group_by_incident (enriched_articles : List (NewsArticle × EnrichedArticle)) :
    List IncidentGroup :=
  enriched_articles.foldl groupStep []

/-! ### Claim-side description of one grouping step

The following definitions restate, in the claim's own words, what one
step of group_by_incident is supposed to do; the refinement theorem
below proves the implementation step equal to them. -/

/-- Category radius as listed by the claim: MILITARY 0.1, UNREST 0.3,
DIPLOMACY 0.5, ECONOMY 0.5, unknown category 0.5. -/
def specGroupRadius (category : String) : ℚ :=
  if category = "MILITARY" then 1/10
  else if category = "UNREST" then 3/10
  else if category = "DIPLOMACY" then 1/2
  else if category = "ECONOMY" then 1/2
  else 1/2

/-- Match predicate as stated by the claim: identical category, Euclidean
distance in degrees between group centroid and article coordinates not
exceeding the category radius (stated on squares), and article timestamp
within 12 hours of at least one existing source of the group. -/
def specMatches (g : IncidentGroup) (category : String) (lng lat timestamp : ℚ) : Prop :=
  g.category = category ∧
  (g.lng - lng) ^ 2 + (g.lat - lat) ^ 2 ≤ (specGroupRadius category) ^ 2 ∧
  ∃ s ∈ g.sources, |timestamp - s.timestamp| ≤ 12 * 3600

instance (g : IncidentGroup) (category : String) (lng lat timestamp : ℚ) :
    Decidable (specMatches g category lng lat timestamp) := by
  unfold specMatches
  exact inferInstance

/-- Attach step as stated by the claim: append the source, and update the
centroid to the incremental running mean over all n attached sources. -/
def specAttach (g : IncidentGroup) (source : EventSource) (severity : ℤ)
    (lng lat : ℚ) : IncidentGroup :=
  let n : ℚ := (g.sources.length : ℚ) + 1
  { category := g.category,
    lng := (g.lng * (n - 1) + lng) / n,
    lat := (g.lat * (n - 1) + lat) / n,
    location_name := g.location_name,
    sources := g.sources ++ [source],
    severities := g.severities ++ [severity] }

/-- First-fit scan as stated by the claim: attach to the first existing
group, in creation order, satisfying the match predicate. -/
def specScan (article : NewsArticle) (enriched : EnrichedArticle) :
    List IncidentGroup → Option (List IncidentGroup)
  | [] => none
  | g :: gs =>
    if specMatches g enriched.category enriched.longitude enriched.latitude
        article.publishedAt then
      some (specAttach g (mkEventSource article enriched) enriched.severity
        enriched.longitude enriched.latitude :: gs)
    else
      (specScan article enriched gs).map (fun gs2 => g :: gs2)

/-- One grouping step as stated by the claim: drop negative-credibility
sources, first-fit attach, otherwise open a new group with the article
as sole source. -/
def specGroupStep (groups : List IncidentGroup) (p : NewsArticle × EnrichedArticle) :
    List IncidentGroup :=
  if get_source_credibility ((p.1).source_name.getD "") < 0 then groups
  else
    match specScan p.1 p.2 groups with
    | some groups2 => groups2
    | none =>
      groups ++
        [IncidentGroup.mk p.2.category p.2.longitude p.2.latitude p.2.location_name
          [mkEventSource p.1 p.2] [p.2.severity]]

theorem get_grouping_distance_eq_spec (c : String) :
    get_grouping_distance c = specGroupRadius c := by
  by_cases h1 : c = "MILITARY"
  · subst h1; with_unfolding_all rfl
  · by_cases h2 : c = "DIPLOMACY"
    · subst h2; with_unfolding_all rfl
    · by_cases h3 : c = "ECONOMY"
      · subst h3; with_unfolding_all rfl
      · by_cases h4 : c = "UNREST"
        · subst h4; with_unfolding_all rfl
        · have e1 : (c == "MILITARY") = false := beq_eq_false_iff_ne.mpr h1
          have e2 : (c == "DIPLOMACY") = false := beq_eq_false_iff_ne.mpr h2
          have e3 : (c == "ECONOMY") = false := beq_eq_false_iff_ne.mpr h3
          have e4 : (c == "UNREST") = false := beq_eq_false_iff_ne.mpr h4
          simp [get_grouping_distance, GROUPING_DISTANCE_DEGREES,
            GROUPING_DISTANCE_DEFAULT, specGroupRadius, List.lookup,
            e1, e2, e3, e4, h1, h2, h3, h4]

theorem matches_iff_spec (g : IncidentGroup) (category : String) (lng lat timestamp : ℚ)
    (hne : g.sources ≠ []) :
    g.matches category lng lat timestamp = true ↔
      specMatches g category lng lat timestamp := by
  have h0 : g.sources.isEmpty = false := by
    cases hs : g.sources with
    | nil => exact absurd hs hne
    | cons a as => rfl
  unfold IncidentGroup.matches
  rw [h0]
  simp only [Bool.false_eq_true, if_false]
  by_cases hc : g.category = category
  · rw [if_neg (fun hcc => hcc hc)]
    by_cases hdist : (g.lng - lng) ^ 2 + (g.lat - lat) ^ 2 >
        (get_grouping_distance g.category) ^ 2
    · rw [if_pos hdist]
      have hdist2 : ¬ ((g.lng - lng) ^ 2 + (g.lat - lat) ^ 2 ≤
          (specGroupRadius category) ^ 2) := by
        rw [← hc, ← get_grouping_distance_eq_spec]
        exact not_le.mpr hdist
      exact iff_of_false (by simp) (fun hs => hdist2 hs.2.1)
    · rw [if_neg hdist]
      have hdist2 : (g.lng - lng) ^ 2 + (g.lat - lat) ^ 2 ≤
          (specGroupRadius category) ^ 2 := by
        rw [← hc, ← get_grouping_distance_eq_spec]
        exact not_lt.mp hdist
      rw [List.any_eq_true]
      constructor
      · rintro ⟨s, hs, hd⟩
        rw [decide_eq_true_eq, GROUPING_TIME_HOURS,
          div_le_iff₀ (by norm_num : (0:ℚ) < 3600)] at hd
        exact ⟨hc, hdist2, s, hs, hd⟩
      · rintro ⟨-, -, s, hs, hd⟩
        refine ⟨s, hs, ?_⟩
        rw [decide_eq_true_eq, GROUPING_TIME_HOURS,
          div_le_iff₀ (by norm_num : (0:ℚ) < 3600)]
        exact hd
  · rw [if_pos (fun hcc => hc hcc)]
    exact iff_of_false (by simp) (fun hs => hc hs.1)

theorem add_source_eq_specAttach (g : IncidentGroup) (source : EventSource)
    (severity : ℤ) (lng lat : ℚ) :
    g.add_source source severity lng lat = specAttach g source severity lng lat := by
  unfold IncidentGroup.add_source specAttach
  simp [List.length_append]

theorem specScan_eq_addFirstMatch (article : NewsArticle) (enriched : EnrichedArticle) :
    ∀ groups : List IncidentGroup, (∀ g ∈ groups, g.sources ≠ []) →
      addFirstMatch enriched.category enriched.longitude enriched.latitude
          article.publishedAt (mkEventSource article enriched) enriched.severity groups =
        specScan article enriched groups := by
  intro groups
  induction groups with
  | nil => intro _; rfl
  | cons g gs ih =>
    intro hne
    have hg : g.sources ≠ [] := hne g (by simp)
    have hiff := matches_iff_spec g enriched.category enriched.longitude enriched.latitude
      article.publishedAt hg
    by_cases hm : specMatches g enriched.category enriched.longitude enriched.latitude
        article.publishedAt
    · simp only [addFirstMatch, specScan, hiff.mpr hm, if_true, if_pos hm,
        add_source_eq_specAttach]
    · have hmf : g.matches enriched.category enriched.longitude enriched.latitude
          article.publishedAt = false := by
        rw [Bool.eq_false_iff]
        exact fun hc => hm (hiff.mp hc)
      simp only [addFirstMatch, specScan, hmf, if_neg hm, Bool.false_eq_true, if_false]
      rw [ih (fun g2 hg2 => hne g2 (by simp [hg2]))]

theorem new_group_add_source (c : String) (lng lat : ℚ) (loc : String)
    (source : EventSource) (severity : ℤ) :
    (IncidentGroup.mk c lng lat loc [] []).add_source source severity lng lat =
      IncidentGroup.mk c lng lat loc [source] [severity] := by
  unfold IncidentGroup.add_source
  simp

theorem groupStep_eq_spec (groups : List IncidentGroup) (p : NewsArticle × EnrichedArticle)
    (hne : ∀ g ∈ groups, g.sources ≠ []) :
    groupStep groups p = specGroupStep groups p := by
  unfold groupStep specGroupStep
  by_cases hcred : get_source_credibility ((p.1).source_name.getD "") < 0
  · simp [hcred]
  · simp only [hcred, if_false]
    rw [specScan_eq_addFirstMatch p.1 p.2 groups hne]
    cases hscan : specScan p.1 p.2 groups with
    | some groups2 => rfl
    | none => rw [new_group_add_source]

theorem addFirstMatch_sources_ne_nil (category : String) (lng lat timestamp : ℚ)
    (source : EventSource) (severity : ℤ) :
    ∀ groups groups2 : List IncidentGroup,
      addFirstMatch category lng lat timestamp source severity groups = some groups2 →
      (∀ g ∈ groups, g.sources ≠ []) → ∀ g ∈ groups2, g.sources ≠ [] := by
  intro groups
  induction groups with
  | nil => intro groups2 h; simp [addFirstMatch] at h
  | cons a as ih =>
    intro groups2 h hne
    unfold addFirstMatch at h
    by_cases hm : a.matches category lng lat timestamp
    · rw [if_pos hm] at h
      obtain rfl := (Option.some.inj h).symm
      intro g2 hg2
      rcases List.mem_cons.mp hg2 with hg2 | hg2
      · subst hg2
        simp [IncidentGroup.add_source]
      · exact hne g2 (List.mem_cons_of_mem a hg2)
    · rw [if_neg hm] at h
      cases hrec : addFirstMatch category lng lat timestamp source severity as with
      | none => rw [hrec] at h; simp at h
      | some as2 =>
        rw [hrec] at h
        simp only [Option.map_some'] at h
        obtain rfl := (Option.some.inj h).symm
        intro g2 hg2
        rcases List.mem_cons.mp hg2 with hg2 | hg2
        · subst hg2; exact hne g2 (List.mem_cons_self g2 as)
        · exact ih as2 hrec (fun g3 hg3 => hne g3 (List.mem_cons_of_mem _ hg3)) g2 hg2

theorem group_by_incident_sources_ne_nil (xs : List (NewsArticle × EnrichedArticle)) :
    ∀ g ∈ group_by_incident xs, g.sources ≠ [] := by
  suffices h : ∀ (ys : List (NewsArticle × EnrichedArticle)) (groups : List IncidentGroup),
      (∀ g ∈ groups, g.sources ≠ []) → ∀ g ∈ ys.foldl groupStep groups, g.sources ≠ [] by
    exact h xs [] (by simp)
  intro ys
  induction ys with
  | nil => intro groups h; simpa using h
  | cons p rest ih =>
    intro groups h
    rw [List.foldl_cons]
    refine ih (groupStep groups p) ?_
    unfold groupStep
    by_cases hcred : get_source_credibility ((p.1).source_name.getD "") < 0
    · simpa [hcred] using h
    · simp only [hcred, if_false]
      cases hscan : addFirstMatch p.2.category p.2.longitude p.2.latitude p.1.publishedAt
          (mkEventSource p.1 p.2) p.2.severity groups with
      | some groups2 =>
        simpa [hscan] using addFirstMatch_sources_ne_nil _ _ _ _ _ _ groups groups2 hscan h
      | none =>
        simp only [hscan]
        intro g hg
        rcases List.mem_append.mp hg with hg | hg
        · exact h g hg
        · simp only [List.mem_singleton] at hg
          subst hg
          simp [IncidentGroup.add_source]

theorem addFirstMatch_source_origin (category : String) (lng lat timestamp : ℚ)
    (source : EventSource) (severity : ℤ) :
    ∀ groups groups2 : List IncidentGroup,
      addFirstMatch category lng lat timestamp source severity groups = some groups2 →
      ∀ g ∈ groups2, ∀ s ∈ g.sources, (∃ g0 ∈ groups, s ∈ g0.sources) ∨ s = source := by
  intro groups
  induction groups with
  | nil => intro groups2 h; simp [addFirstMatch] at h
  | cons a as ih =>
    intro groups2 h
    unfold addFirstMatch at h
    by_cases hm : a.matches category lng lat timestamp
    · rw [if_pos hm] at h
      obtain rfl := (Option.some.inj h).symm
      intro g2 hg2 s hs
      rcases List.mem_cons.mp hg2 with hg2 | hg2
      · subst hg2
        simp only [IncidentGroup.add_source, List.mem_append, List.mem_singleton] at hs
        rcases hs with hs | hs
        · exact Or.inl ⟨a, List.mem_cons_self a as, hs⟩
        · exact Or.inr hs
      · exact Or.inl ⟨g2, List.mem_cons_of_mem a hg2, hs⟩
    · rw [if_neg hm] at h
      cases hrec : addFirstMatch category lng lat timestamp source severity as with
      | none => rw [hrec] at h; simp at h
      | some as2 =>
        rw [hrec] at h
        simp only [Option.map_some'] at h
        obtain rfl := (Option.some.inj h).symm
        intro g2 hg2 s hs
        rcases List.mem_cons.mp hg2 with hg2 | hg2
        · subst hg2
          exact Or.inl ⟨g2, List.mem_cons_self g2 as, hs⟩
        · rcases ih as2 hrec g2 hg2 s hs with ⟨g0, hg0, hs0⟩ | hs0
          · exact Or.inl ⟨g0, List.mem_cons_of_mem a hg0, hs0⟩
          · exact Or.inr hs0

/-- Claim C9: group_by_incident drops, before any group matching, every
article whose source name has negative credibility (appending such an
article leaves the groups unchanged), and consequently every source in
every returned group has nonnegative credibility. -/
theorem group_by_incident_drops_negative_credibility :
    (∀ (xs : List (NewsArticle × EnrichedArticle)) (p : NewsArticle × EnrichedArticle),
        get_source_credibility ((p.1).source_name.getD "") < 0 →
        group_by_incident (xs ++ [p]) = group_by_incident xs) ∧
    (∀ xs : List (NewsArticle × EnrichedArticle), ∀ g ∈ group_by_incident xs,
        ∀ s ∈ g.sources, 0 ≤ get_source_credibility s.source_name) := by
  constructor
  · intro xs p hneg
    unfold group_by_incident
    rw [List.foldl_append, List.foldl_cons, List.foldl_nil]
    unfold groupStep
    rw [if_pos hneg]
  · have hUnknown : (0 : ℤ) ≤ get_source_credibility "Unknown" := by
      with_unfolding_all decide
    have hKeep : ∀ name : Option String, ¬ get_source_credibility (name.getD "") < 0 →
        0 ≤ get_source_credibility (orUnknown name) := by
      intro name h
      cases name with
      | none => exact hUnknown
      | some s =>
        by_cases hs : s = ""
        · subst hs; exact hUnknown
        · simpa [orUnknown, hs] using not_lt.mp h
    suffices h : ∀ (ys : List (NewsArticle × EnrichedArticle)) (groups : List IncidentGroup),
        (∀ g ∈ groups, ∀ s ∈ g.sources, 0 ≤ get_source_credibility s.source_name) →
        ∀ g ∈ ys.foldl groupStep groups, ∀ s ∈ g.sources,
          0 ≤ get_source_credibility s.source_name by
      intro xs
      exact h xs [] (by simp)
    intro ys
    induction ys with
    | nil => intro groups h; simpa using h
    | cons p rest ih =>
      intro groups h
      rw [List.foldl_cons]
      refine ih (groupStep groups p) ?_
      unfold groupStep
      by_cases hcred : get_source_credibility ((p.1).source_name.getD "") < 0
      · simpa [hcred] using h
      · simp only [hcred, if_false]
        have hsrc : 0 ≤ get_source_credibility (mkEventSource p.1 p.2).source_name :=
          hKeep p.1.source_name hcred
        cases hscan : addFirstMatch p.2.category p.2.longitude p.2.latitude p.1.publishedAt
            (mkEventSource p.1 p.2) p.2.severity groups with
        | some groups2 =>
          simp only [hscan]
          intro g hg s hs
          rcases addFirstMatch_source_origin _ _ _ _ _ _ groups groups2 hscan g hg s hs with
            ⟨g0, hg0, hs0⟩ | hs0
          · exact h g0 hg0 s hs0
          · subst hs0; exact hsrc
        | none =>
          simp only [hscan]
          intro g hg s hs
          rcases List.mem_append.mp hg with hg | hg
          · exact h g hg s hs
          · simp only [List.mem_singleton] at hg
            subst hg
            simp only [IncidentGroup.add_source, List.nil_append,
              List.mem_singleton] at hs
            subst hs
            exact hsrc

/-- Witness for the credibility filter: a concrete RT article is dropped
(sole article yields no groups), and the first conjunct of the source
invariant instantiated at a concrete Reuters article. -/
theorem group_by_incident_drops_negative_credibility_witness :
    group_by_incident
        ([] ++ [(NewsArticle.mk "Missile strike hits depot" "d" "http://rt.example/a"
            (some "RT") 0,
          EnrichedArticle.mk "Kyiv, Ukraine" "MILITARY" 7 "sum" true 50 30)]) =
      group_by_incident [] ∧
    (0 : ℤ) ≤ get_source_credibility "Reuters" := by
  constructor
  · exact group_by_incident_drops_negative_credibility.1 []
      (NewsArticle.mk "Missile strike hits depot" "d" "http://rt.example/a" (some "RT") 0,
       EnrichedArticle.mk "Kyiv, Ukraine" "MILITARY" 7 "sum" true 50 30)
      (by with_unfolding_all decide)
  · exact group_by_incident_drops_negative_credibility.2
      [(NewsArticle.mk "Ceasefire talks resume" "d" "http://re.example/b" (some "Reuters") 0,
        EnrichedArticle.mk "Kyiv, Ukraine" "MILITARY" 7 "sum" true 50 30)]
      (IncidentGroup.mk "MILITARY" 30 50 "Kyiv, Ukraine"
        [EventSource.mk "ceasefire talks resume|http://re.example/b" "Ceasefire talks resume"
          "sum" "Reuters" "http://re.example/b" 0] [7])
      (by with_unfolding_all decide)
      (EventSource.mk "ceasefire talks resume|http://re.example/b" "Ceasefire talks resume"
        "sum" "Reuters" "http://re.example/b" 0)
      (by with_unfolding_all decide)

/-- Claim C5: group_by_incident processes articles in input order; one
appended article is dropped when its source has negative credibility,
attached to the first group, in creation order, satisfying the claim's
match predicate (identical category, centroid within the category
radius of 0.1, 0.3, 0.5, 0.5 or default 0.5 degrees, and within 12
hours of at least one existing source), updating the centroid to the
incremental running mean, and otherwise opens a new group with that
article as sole source. -/
theorem group_by_incident_first_fit_characterization
    (xs : List (NewsArticle × EnrichedArticle)) (p : NewsArticle × EnrichedArticle) :
    group_by_incident [] = [] ∧
    group_by_incident (xs ++ [p]) = specGroupStep (group_by_incident xs) p := by
  refine ⟨rfl, ?_⟩
  unfold group_by_incident
  rw [List.foldl_append, List.foldl_cons, List.foldl_nil]
  exact groupStep_eq_spec _ p (group_by_incident_sources_ne_nil xs)

/-! ### Text cleaning and synthesized events (src/worker/main.py,
_clean_text and the SynthesizedEvent pydantic model) -/

/-- Characters kept by the cleaning regex of _clean_text: ASCII, Latin-1
letters, typographic dashes and quotes, and the ellipsis. -/
def keptChar (c : Char) : Bool :=
  let v := c.toNat
  v ≤ 0x7F || (0xC0 ≤ v && v ≤ 0xFF) || (0x2010 ≤ v && v ≤ 0x2015) ||
  (0x2018 ≤ v && v ≤ 0x201F) || v == 0x2026

/-- Replace every maximal whitespace run by a single space (the
whitespace-collapsing substitution of _clean_text). -/
def collapseWs : List Char → List Char
  | [] => []
  | [c] => [if pyIsSpace c then ' ' else c]
  | c :: d :: rest =>
    if pyIsSpace c && pyIsSpace d then collapseWs (d :: rest)
    else (if pyIsSpace c then ' ' else c) :: collapseWs (d :: rest)

/-- main._clean_text: strip, remove characters outside the kept ranges,
collapse whitespace runs, drop a trailing run of commas, semicolons,
colons and whitespace, and strip again. -/
def clean_text (text : String) : String :=
  let t1 := pyStrip text
  let t2 := t1.toList.filter keptChar
  let t3 := collapseWs t2
  let t4 := (t3.reverse.dropWhile
    (fun c => c == ',' || c == ';' || c == ':' || pyIsSpace c)).reverse
  pyStrip (String.mk t4)

/-- main.clamp_severity. -/
def clamp_severity (v : ℤ) : ℤ :=
  max 1 (min 10 v)

/-- main.SynthesizedEvent: synthesized event data. -/
structure SynthesizedEvent where
  title : String
  summary : String
  fallout_prediction : String
  severity : ℤ
deriving DecidableEq

/-- Construction of a SynthesizedEvent through its pydantic field
validators: the three text fields pass through _clean_text and the
severity is clamped to the range 1 to 10. -/
def mkSynthesizedEvent (title summary fallout_prediction : String) (severity : ℤ) :
    SynthesizedEvent :=
  { title := clean_text title,
    summary := clean_text summary,
    fallout_prediction := clean_text fallout_prediction,
    severity := clamp_severity severity }

/-- The sort comparison of synthesize_incident's source ordering: key
(-credibility, timestamp) ascending, so higher credibility first and,
on ties, earlier timestamp first. -/
def credTimeLE (a b : EventSource) : Bool :=
  let ca := get_source_credibility a.source_name
  let cb := get_source_credibility b.source_name
  decide (cb < ca) || (decide (ca = cb) && decide (a.timestamp ≤ b.timestamp))

/-- The credibility-then-time ordering of sources used by
synthesize_incident (python sorted is stable; so is mergeSort). -/
def synthesisOrder (sources : List EventSource) : List EventSource :=
  sources.mergeSort credTimeLE

/-- The failure path of synthesize_incident (timeout or any exception):
sorted_sources[0] supplies headline and summary, the fallout prediction
is empty, and the severity is the constant 5, all passed through the
SynthesizedEvent validators.  none models the IndexError a failing call
on an empty source list would raise. -/
def synthesize_incident_fallback (sources : List EventSource) : Option SynthesizedEvent :=
  match synthesisOrder sources with
  | [] => none
  | src :: _ => some (mkSynthesizedEvent src.headline src.summary "" 5)

theorem credTimeLE_iff (a b : EventSource) :
    credTimeLE a b = true ↔
      (get_source_credibility b.source_name < get_source_credibility a.source_name ∨
        (get_source_credibility a.source_name = get_source_credibility b.source_name ∧
          a.timestamp ≤ b.timestamp)) := by
  simp [credTimeLE]

theorem credTimeLE_trans (a b c : EventSource) (hab : credTimeLE a b = true)
    (hbc : credTimeLE b c = true) : credTimeLE a c = true := by
  rw [credTimeLE_iff] at hab hbc ⊢
  rcases hab with hab | ⟨hab1, hab2⟩ <;> rcases hbc with hbc | ⟨hbc1, hbc2⟩
  · exact Or.inl (hbc.trans hab)
  · exact Or.inl (hbc1 ▸ hab)
  · exact Or.inl (hab1 ▸ hbc)
  · exact Or.inr ⟨hab1.trans hbc1, hab2.trans hbc2⟩

theorem credTimeLE_total (a b : EventSource) :
    credTimeLE a b = true ∨ credTimeLE b a = true := by
  rw [credTimeLE_iff, credTimeLE_iff]
  rcases lt_trichotomy (get_source_credibility a.source_name)
      (get_source_credibility b.source_name) with h | h | h
  · exact Or.inr (Or.inl h)
  · rcases le_total a.timestamp b.timestamp with ht | ht
    · exact Or.inl (Or.inr ⟨h, ht⟩)
    · exact Or.inr (Or.inr ⟨h.symm, ht⟩)
  · exact Or.inl (Or.inl h)

/-- Claim C1, amended: on synthesis failure or timeout over a non-empty
source list, the deterministic fallback takes the single
highest-credibility source (ties broken by earliest timestamp) for
title and summary (through the text validators), an empty fallout
prediction, and the constant severity 5 (not the maximum severity seen
across the group's sources). -/
theorem synthesize_incident_fallback_characterization (sources : List EventSource)
    (hne : sources ≠ []) :
    ∃ src ∈ sources,
      synthesize_incident_fallback sources =
        some (mkSynthesizedEvent src.headline src.summary "" 5) ∧
      (mkSynthesizedEvent src.headline src.summary "" 5).fallout_prediction = "" ∧
      (mkSynthesizedEvent src.headline src.summary "" 5).severity = 5 ∧
      ∀ t ∈ sources,
        get_source_credibility t.source_name < get_source_credibility src.source_name ∨
        (get_source_credibility t.source_name = get_source_credibility src.source_name ∧
          src.timestamp ≤ t.timestamp) := by
  have hperm : (synthesisOrder sources).Perm sources := List.mergeSort_perm sources credTimeLE
  cases hs : synthesisOrder sources with
  | nil =>
    exfalso
    rw [hs] at hperm
    exact hne hperm.symm.eq_nil
  | cons src rest =>
    have hsorted : List.Pairwise (fun a b => credTimeLE a b = true) (synthesisOrder sources) :=
      @List.sorted_mergeSort _ credTimeLE
        (fun a b c => credTimeLE_trans a b c)
        (fun a b => Bool.or_eq_true _ _ ▸ (credTimeLE_total a b)) sources
    rw [hs] at hsorted hperm
    have hmem : src ∈ sources := hperm.mem_iff.mp (List.mem_cons_self src rest)
    refine ⟨src, hmem, ?_, ?_, ?_, ?_⟩
    · unfold synthesize_incident_fallback
      rw [hs]
    · rfl
    · rfl
    · intro t ht
      have ht2 : t ∈ src :: rest := hperm.mem_iff.mpr ht
      rcases List.mem_cons.mp ht2 with rfl | ht2
      · exact Or.inr ⟨rfl, le_refl _⟩
      · have := (List.pairwise_cons.mp hsorted).1 t ht2
        rw [credTimeLE_iff] at this
        rcases this with h | ⟨h1, h2⟩
        · exact Or.inl h
        · exact Or.inr ⟨h1.symm, h2⟩

/-- Witness for the fallback characterization at a concrete two-source
list. -/
theorem synthesize_incident_fallback_characterization_witness :
    ∃ src ∈ [EventSource.mk "id1" "Talks continue" "s1" "Blog X" "http://x.example/1" 50,
      EventSource.mk "id2" "Summit held" "s2" "Reuters" "http://r.example/2" 9000],
      synthesize_incident_fallback
          [EventSource.mk "id1" "Talks continue" "s1" "Blog X" "http://x.example/1" 50,
           EventSource.mk "id2" "Summit held" "s2" "Reuters" "http://r.example/2" 9000] =
        some (mkSynthesizedEvent src.headline src.summary "" 5) ∧
      (mkSynthesizedEvent src.headline src.summary "" 5).fallout_prediction = "" ∧
      (mkSynthesizedEvent src.headline src.summary "" 5).severity = 5 ∧
      ∀ t ∈ [EventSource.mk "id1" "Talks continue" "s1" "Blog X" "http://x.example/1" 50,
        EventSource.mk "id2" "Summit held" "s2" "Reuters" "http://r.example/2" 9000],
        get_source_credibility t.source_name < get_source_credibility src.source_name ∨
        (get_source_credibility t.source_name = get_source_credibility src.source_name ∧
          src.timestamp ≤ t.timestamp) :=
  synthesize_incident_fallback_characterization _ (List.cons_ne_nil _ _)

/-- Counterexample to claim C1 as stated: for a concrete one-source
group of severity 7, the fallback severity is 5, not the maximum
severity seen across the group's sources. -/
theorem synthesize_incident_fallback_severity_counterexample :
    (synthesize_incident_fallback
        (IncidentGroup.mk "MILITARY" 30 50 "Kyiv, Ukraine"
          [EventSource.mk "id1" "Depot hit" "s1" "Reuters" "http://r.example/2" 0]
          [7]).sources).map SynthesizedEvent.severity ≠
      some ((IncidentGroup.mk "MILITARY" 30 50 "Kyiv, Ukraine"
          [EventSource.mk "id1" "Depot hit" "s1" "Reuters" "http://r.example/2" 0]
          [7]).get_max_severity) ∧
    (synthesize_incident_fallback
        [EventSource.mk "id1" "Depot hit" "s1" "Reuters" "http://r.example/2" 0]).map
        SynthesizedEvent.severity = some 5 ∧
    (IncidentGroup.mk "MILITARY" 30 50 "Kyiv, Ukraine"
        [EventSource.mk "id1" "Depot hit" "s1" "Reuters" "http://r.example/2" 0]
        [7]).get_max_severity = 7 := by
  with_unfolding_all decide

/-! ### Incident identity (src/worker/main.py, generate_incident_id) -/

/-- Python round: round half to even. -/
def pyRound (q : ℚ) : ℤ :=
  if q - ⌊q⌋ < 1/2 then ⌊q⌋
  else if 1/2 < q - ⌊q⌋ then ⌊q⌋ + 1
  else if Even ⌊q⌋ then ⌊q⌋ else ⌊q⌋ + 1

/-- main.generate_incident_id, modelled by the digest's preimage: the
content tuple (category, grid longitude, grid latitude, 12-hour time
bucket) that the source renders as the string
"category|grid_lng|grid_lat|time_bucket" and sha256-hashes to 16 hex
digits.  The grids are multiples of the category radius, so their
two-decimal rendering is exact, and the bucket's ISO rendering is
injective; the rendered string therefore determines and is determined
by this tuple. -/
def incident_id_content (category : String) (lng lat : ℚ) (timestamp : ℚ) :
    String × ℚ × ℚ × ℤ :=
  (category,
   (pyRound (lng / get_grouping_distance category) : ℚ) * get_grouping_distance category,
   (pyRound (lat / get_grouping_distance category) : ℚ) * get_grouping_distance category,
   ⌊timestamp / 43200⌋)

theorem abs_sub_pyRound_le (q : ℚ) : |q - (pyRound q : ℚ)| ≤ 1/2 := by
  have h0 : (⌊q⌋ : ℚ) ≤ q := Int.floor_le q
  have h1 : q < ⌊q⌋ + 1 := Int.lt_floor_add_one q
  unfold pyRound
  split_ifs with hf hg he <;> (rw [abs_le]; push_cast; constructor) <;>
    simp only [not_lt] at * <;> linarith

theorem get_grouping_distance_pos (c : String) : 0 < get_grouping_distance c := by
  rw [get_grouping_distance_eq_spec]
  unfold specGroupRadius
  split_ifs <;> norm_num

/-- Claim C6: generate_incident_id is deterministic in (category, grid
cell, 12-hour bucket): same category, same quantized grid cells and
same time bucket give the same id content; changing the category,
moving a coordinate beyond one grid cell at the category radius, or
crossing a 12-hour bucket changes the id content. -/
theorem generate_incident_id_properties :
    (∀ (category : String) (lng lat t lng2 lat2 t2 : ℚ),
        pyRound (lng / get_grouping_distance category) =
          pyRound (lng2 / get_grouping_distance category) →
        pyRound (lat / get_grouping_distance category) =
          pyRound (lat2 / get_grouping_distance category) →
        ⌊t / 43200⌋ = ⌊t2 / 43200⌋ →
        incident_id_content category lng lat t = incident_id_content category lng2 lat2 t2) ∧
    (∀ (c c2 : String) (lng lat t lng2 lat2 t2 : ℚ), c ≠ c2 →
        incident_id_content c lng lat t ≠ incident_id_content c2 lng2 lat2 t2) ∧
    (∀ (category : String) (lng lat t lng2 lat2 t2 : ℚ),
        get_grouping_distance category < |lng - lng2| →
        incident_id_content category lng lat t ≠ incident_id_content category lng2 lat2 t2) ∧
    (∀ (category : String) (lng lat t lng2 lat2 t2 : ℚ),
        ⌊t / 43200⌋ ≠ ⌊t2 / 43200⌋ →
        incident_id_content category lng lat t ≠ incident_id_content category lng2 lat2 t2) := by
  refine ⟨?_, ?_, ?_, ?_⟩
  · intro category lng lat t lng2 lat2 t2 h1 h2 h3
    unfold incident_id_content
    rw [h1, h2, h3]
  · intro c c2 lng lat t lng2 lat2 t2 hne heq
    exact hne (congrArg Prod.fst heq)
  · intro category lng lat t lng2 lat2 t2 hfar heq
    set d := get_grouping_distance category with hd
    have hdpos : 0 < d := get_grouping_distance_pos category
    have hgrid : (pyRound (lng / d) : ℚ) * d = (pyRound (lng2 / d) : ℚ) * d := by
      have := congrArg (fun x => x.2.1) heq
      simpa [incident_id_content] using this
    have hr : pyRound (lng / d) = pyRound (lng2 / d) := by
      have := mul_right_cancel₀ (ne_of_gt hdpos) hgrid
      exact_mod_cast this
    have b1 := abs_sub_pyRound_le (lng / d)
    have b2 := abs_sub_pyRound_le (lng2 / d)
    rw [hr] at b1
    have hdiff : |lng / d - lng2 / d| ≤ 1 := by
      calc |lng / d - lng2 / d| =
          |(lng / d - (pyRound (lng2 / d) : ℚ)) - (lng2 / d - (pyRound (lng2 / d) : ℚ))| := by
            ring_nf
        _ ≤ |lng / d - (pyRound (lng2 / d) : ℚ)| + |lng2 / d - (pyRound (lng2 / d) : ℚ)| :=
            abs_sub _ _
        _ ≤ 1/2 + 1/2 := add_le_add b1 b2
        _ = 1 := by norm_num
    have hfar2 : |lng / d - lng2 / d| > 1 := by
      rw [div_sub_div_same, abs_div, abs_of_pos hdpos]
      rw [gt_iff_lt, lt_div_iff₀ hdpos, one_mul]
      exact hfar
    exact absurd hdiff (not_le.mpr hfar2)
  · intro category lng lat t lng2 lat2 t2 hne heq
    exact hne (congrArg (fun x => x.2.2.2) heq)

/-- Witness for the incident-id properties at concrete inputs: same
MILITARY grid cell and bucket give equal content; MILITARY versus
UNREST, a longitude shift of 0.48 degrees, and a bucket crossing each
change the content. -/
theorem generate_incident_id_properties_witness :
    incident_id_content "MILITARY" (763/25) (1261/25) 1000 =
      incident_id_content "MILITARY" (3053/100) (5042/100) 2000 ∧
    incident_id_content "MILITARY" (763/25) (1261/25) 1000 ≠
      incident_id_content "UNREST" (763/25) (1261/25) 1000 ∧
    incident_id_content "MILITARY" (763/25) (1261/25) 1000 ≠
      incident_id_content "MILITARY" 31 (1261/25) 1000 ∧
    incident_id_content "MILITARY" (763/25) (1261/25) 1000 ≠
      incident_id_content "MILITARY" (763/25) (1261/25) 50000 := by
  refine ⟨?_, ?_, ?_, ?_⟩
  · exact generate_incident_id_properties.1 "MILITARY" (763/25) (1261/25) 1000
      (3053/100) (5042/100) 2000 (by with_unfolding_all decide)
      (by with_unfolding_all decide) (by with_unfolding_all decide)
  · exact generate_incident_id_properties.2.1 "MILITARY" "UNREST" (763/25) (1261/25) 1000
      (763/25) (1261/25) 1000 (by with_unfolding_all decide)
  · exact generate_incident_id_properties.2.2.1 "MILITARY" (763/25) (1261/25) 1000
      31 (1261/25) 1000 (by with_unfolding_all decide)
  · exact generate_incident_id_properties.2.2.2 "MILITARY" (763/25) (1261/25) 1000
      (763/25) (1261/25) 50000 (by with_unfolding_all decide)

/-! ### Event reconciler (src/worker/main.py, merge_with_existing) -/

/-- An event record as persisted (the dict form).  last_updated and the
_last_synthesis_count bookkeeping key may be absent and are read
through .get with defaults, hence the Options. -/
structure EventRec where
  id : String
  title : String
  category : String
  coordinates : ℚ × ℚ
  location_name : String
  region : String
  severity : ℤ
  summary : String
  timestamp : ℚ
  last_updated : Option ℚ
  fallout_prediction : String
  sources : List EventSource
  last_synthesis_count : Option ℕ
deriving DecidableEq

/-- main.GeoEvent: the final schema of a freshly synthesized incident
(all fields present, no bookkeeping key). -/
structure GeoEvent where
  id : String
  title : String
  category : String
  coordinates : ℚ × ℚ
  location_name : String
  region : String
  severity : ℤ
  summary : String
  timestamp : ℚ
  last_updated : ℚ
  fallout_prediction : String
  sources : List EventSource
deriving DecidableEq

/-- GeoEvent.model_dump as used by merge_with_existing: the dict of a
new event, with no _last_synthesis_count key yet. -/
def GeoEvent.toDict (e : GeoEvent) : EventRec :=
  { id := e.id, title := e.title, category := e.category, coordinates := e.coordinates,
    location_name := e.location_name, region := e.region, severity := e.severity,
    summary := e.summary, timestamp := e.timestamp, last_updated := some e.last_updated,
    fallout_prediction := e.fallout_prediction, sources := e.sources,
    last_synthesis_count := none }

/-- main.MAX_EVENTS. -/
def MAX_EVENTS : ℕ := 500

/-- main.SEVERITY_BONUS_HOURS. -/
def SEVERITY_BONUS_HOURS : List (ℤ × ℚ) :=
  [(10, 168), (9, 120), (8, 72), (7, 48)]

/-- main.retention_score: last_updated (falling back to timestamp) plus
the severity bonus hours (one hour is 3600 seconds in the timestamp
model). -/
def retention_score (e : EventRec) : ℚ :=
  (e.last_updated.getD e.timestamp) + ((SEVERITY_BONUS_HOURS.lookup e.severity).getD 0) * 3600

/-- Python dict update on an insertion-ordered association list: an
existing key keeps its position and gets the new value, a new key is
appended. -/
def dictSet (m : List (String × EventRec)) (k : String) (v : EventRec) :
    List (String × EventRec) :=
  if m.any (fun kv => kv.1 == k) then
    m.map (fun kv => if kv.1 == k then (k, v) else kv)
  else m ++ [(k, v)]

/-- The dict comprehension indexing existing events by id (value of the
last occurrence at the position of the first). -/
def existing_by_id_of (existing : List EventRec) : List (String × EventRec) :=
  existing.foldl (fun m e => dictSet m e.id e) []

/-- The seen-source-id set seeded from every source of every event of
the persisted input (modelled as a list used through membership). -/
def seedSeen (existing : List EventRec) : List String :=
  existing.foldl (fun acc e => acc ++ e.sources.map (fun s => s.id)) []

/-- The source filter of the merge loop: keep sources whose ids are
unseen, adding each kept id to the seen set at once (so duplicates
within one event are dropped too); returns the kept sources and the
grown seen set. -/
def filterFreshSources (seen : List String) : List EventSource → List EventSource × List String
  | [] => ([], seen)
  | s :: rest =>
    if s.id ∈ seen then filterFreshSources seen rest
    else
      ((s :: (filterFreshSources (seen ++ [s.id]) rest).1),
       (filterFreshSources (seen ++ [s.id]) rest).2)

/-- main._find_similar_existing_event at its call-site defaults
(distance threshold 1.0 degree, 24 hours): the key of the first entry,
in dict iteration order, with the same category, centroid within 1.0
degree (squared-distance form of the source's sqrt-comparison) and
timestamps within 24 hours. -/
def find_similar (new : EventRec) (m : List (String × EventRec)) : Option String :=
  (m.find? (fun kv =>
    decide (kv.2.category = new.category) &&
    decide ((new.coordinates.1 - kv.2.coordinates.1) ^ 2 +
      (new.coordinates.2 - kv.2.coordinates.2) ^ 2 ≤ 1 ^ 2) &&
    decide (|new.timestamp - kv.2.timestamp| / 3600 ≤ 24))).map (fun kv => kv.1)

/-- The loop state of merge_with_existing: the id-indexed dict, the
running seen-source-id set, and the queue of events (by key) needing
re-synthesis. -/
structure MergeState where
  map : List (String × EventRec)
  seen : List String
  needs : List String

/-- One iteration of the merge loop for one new event: exact id match
first, then similarity match.  On a match, append the unseen sources,
re-sort the source list by timestamp, raise last_updated and severity
to the max of old and new, and queue the event for re-synthesis once
two or more sources accumulated since the last synthesis.  With no
match, insert the event keeping only its unseen sources, or drop it
when none are left. -/
def mergeStep (st : MergeState) (event : GeoEvent) : MergeState :=
  match (if (st.map.lookup event.id).isSome then some event.id
      else find_similar event.toDict st.map) with
  | some k =>
    match st.map.lookup k with
    | none => st
    | some existing =>
      if (filterFreshSources st.seen event.toDict.sources).1 = [] then
        { st with seen := (filterFreshSources st.seen event.toDict.sources).2 }
      else if 2 ≤
          (((existing.sources ++ (filterFreshSources st.seen event.toDict.sources).1).length : ℤ) -
            (existing.last_synthesis_count.getD existing.sources.length : ℤ)) then
        { map := dictSet st.map k
            ({ existing with
               sources :=
                 (existing.sources ++
                   (filterFreshSources st.seen event.toDict.sources).1).mergeSort
                     (fun a b => decide (a.timestamp ≤ b.timestamp)),
               last_updated :=
                 some (max (existing.last_updated.getD existing.timestamp) event.last_updated),
               severity := max existing.severity event.severity,
               last_synthesis_count :=
                 some (existing.sources ++
                   (filterFreshSources st.seen event.toDict.sources).1).length }),
          seen := (filterFreshSources st.seen event.toDict.sources).2,
          needs := st.needs ++ [k] }
      else
        { map := dictSet st.map k
            ({ existing with
               sources :=
                 (existing.sources ++
                   (filterFreshSources st.seen event.toDict.sources).1).mergeSort
                     (fun a b => decide (a.timestamp ≤ b.timestamp)),
               last_updated :=
                 some (max (existing.last_updated.getD existing.timestamp) event.last_updated),
               severity := max existing.severity event.severity }),
          seen := (filterFreshSources st.seen event.toDict.sources).2,
          needs := st.needs }
  | none =>
    if (filterFreshSources st.seen event.toDict.sources).1 = [] then
      { st with seen := (filterFreshSources st.seen event.toDict.sources).2 }
    else
      { st with
        map := dictSet st.map event.id
          ({ event.toDict with sources := (filterFreshSources st.seen event.toDict.sources).1 }),
        seen := (filterFreshSources st.seen event.toDict.sources).2 }

/-- One queued re-synthesis update: the i-th synthesis outcome for the
event at the given key; a result overwrites title and summary,
overwrites the fallout prediction only when non-empty, and raises the
severity when strictly higher; a failed call (none) leaves the merged
state untouched. -/
def synthStep (oracle : ℕ → Option SynthesizedEvent) (m : List (String × EventRec))
    (ik : ℕ × String) : List (String × EventRec) :=
  match oracle ik.1 with
  | none => m
  | some synthesized =>
    match m.lookup ik.2 with
    | none => m
    | some ev =>
      dictSet m ik.2
        ({ ev with
           title := synthesized.title,
           summary := synthesized.summary,
           fallout_prediction :=
             if synthesized.fallout_prediction ≠ "" then synthesized.fallout_prediction
             else ev.fallout_prediction,
           severity :=
             if ev.severity < synthesized.severity then synthesized.severity
             else ev.severity })

/-- The re-synthesis pass: when a client is present, each queued event
(by key, in queue order) receives its synthesis outcome. -/
def applySynth (map0 : List (String × EventRec)) (needs : List String) (client : Bool)
    (oracle : ℕ → Option SynthesizedEvent) : List (String × EventRec) :=
  if needs = [] ∨ client = false then map0
  else needs.enum.foldl (synthStep oracle) map0

/-- merge_with_existing before eviction: the id-indexed dict after the
merge loop and the re-synthesis pass.  The synthesis outcomes are a
parameter, since the external synthesizer may fail (none) or return
any validated result. -/
def merge_core (new_events : List GeoEvent) (existing_data : List EventRec) (client : Bool)
    (oracle : ℕ → Option SynthesizedEvent) : List (String × EventRec) :=
  applySynth
    (new_events.foldl mergeStep (MergeState.mk (existing_by_id_of existing_data)
      (seedSeen existing_data) [])).map
    (new_events.foldl mergeStep (MergeState.mk (existing_by_id_of existing_data)
      (seedSeen existing_data) [])).needs
    client oracle

/-- main.merge_with_existing: merge, re-synthesize, sort the resulting
events by retention score descending (python sorted with reverse=True
is stable, as is mergeSort with the flipped comparison) and keep the
top MAX_EVENTS. -/
def merge_with_existing (new_events : List GeoEvent) (existing_data : List EventRec)
    (client : Bool) (oracle : ℕ → Option SynthesizedEvent) : List EventRec :=
  (((merge_core new_events existing_data client oracle).map (fun kv => kv.2)).mergeSort
    (fun a b => decide (retention_score b ≤ retention_score a))).take MAX_EVENTS

/-- The source ids of one event, in order. -/
def sourceIds (e : EventRec) : List String :=
  e.sources.map (fun s => s.id)

/-- All source ids over a list of events, in order. -/
def allSourceIds (events : List EventRec) : List String :=
  events.flatMap sourceIds

/-! ### Dict lemmas -/

/-- Keys of an association list. -/
def keysOf (m : List (String × EventRec)) : List String :=
  m.map (fun kv => kv.1)

/-- Values of an association list, in order. -/
def valuesOf (m : List (String × EventRec)) : List EventRec :=
  m.map (fun kv => kv.2)

/-- Well-formedness of the id-indexed dict: no duplicate keys, and each
value's id field is its key. -/
def MapWF (m : List (String × EventRec)) : Prop :=
  (keysOf m).Nodup ∧ ∀ kv ∈ m, kv.2.id = kv.1

theorem lookup_cons_eq (k1 : String) (v1 : EventRec) (rest : List (String × EventRec))
    (k : String) :
    ((k1, v1) :: rest).lookup k = if k = k1 then some v1 else rest.lookup k := by
  by_cases h : k = k1
  · simp [List.lookup_cons, h]
  · have hb : (k == k1) = false := beq_eq_false_iff_ne.mpr h
    simp [List.lookup_cons, hb, h]

theorem lookup_eq_none_iff (m : List (String × EventRec)) (k : String) :
    m.lookup k = none ↔ ∀ kv ∈ m, kv.1 ≠ k := by
  induction m with
  | nil => simp
  | cons a rest ih =>
    obtain ⟨k1, v1⟩ := a
    rw [lookup_cons_eq]
    by_cases h : k = k1
    · subst h
      simp
    · rw [if_neg h, ih]
      simp only [List.mem_cons]
      constructor
      · rintro hall kv (rfl | hkv)
        · exact fun hc => h hc.symm
        · exact hall kv hkv
      · intro hall kv hkv
        exact hall kv (Or.inr hkv)

theorem lookup_mem (m : List (String × EventRec)) (k : String) (v : EventRec)
    (h : m.lookup k = some v) : (k, v) ∈ m := by
  induction m with
  | nil => simp at h
  | cons a rest ih =>
    obtain ⟨k1, v1⟩ := a
    rw [lookup_cons_eq] at h
    by_cases hb : k = k1
    · rw [if_pos hb] at h
      obtain rfl := Option.some.inj h
      subst hb
      exact List.mem_cons_self _ _
    · rw [if_neg hb] at h
      exact List.mem_cons_of_mem _ (ih h)

theorem mem_lookup_of_nodup (m : List (String × EventRec)) (k : String) (v : EventRec)
    (hnd : (keysOf m).Nodup) (hmem : (k, v) ∈ m) : m.lookup k = some v := by
  induction m with
  | nil => simp at hmem
  | cons a rest ih =>
    obtain ⟨k1, v1⟩ := a
    rw [lookup_cons_eq]
    rcases List.mem_cons.mp hmem with heq | hmem2
    · obtain ⟨rfl, rfl⟩ := Prod.mk.injEq .. ▸ heq
      · simp
    · by_cases hb : k = k1
      · exfalso
        subst hb
        have : k ∈ keysOf rest := List.mem_map.mpr ⟨(k, v), hmem2, rfl⟩
        exact (List.nodup_cons.mp hnd).1 this
      · rw [if_neg hb]
        exact ih (List.nodup_cons.mp hnd).2 hmem2

theorem lookup_append_some (m m2 : List (String × EventRec)) (k : String) (v : EventRec)
    (h : m.lookup k = some v) : (m ++ m2).lookup k = some v := by
  induction m with
  | nil => simp at h
  | cons a rest ih =>
    obtain ⟨k1, v1⟩ := a
    rw [lookup_cons_eq] at h
    rw [List.cons_append, lookup_cons_eq]
    by_cases hb : k = k1
    · rwa [if_pos hb] at h ⊢
    · rw [if_neg hb] at h ⊢
      exact ih h

theorem lookup_append_none (m m2 : List (String × EventRec)) (k : String)
    (h : m.lookup k = none) : (m ++ m2).lookup k = m2.lookup k := by
  induction m with
  | nil => simp
  | cons a rest ih =>
    obtain ⟨k1, v1⟩ := a
    rw [lookup_cons_eq] at h
    rw [List.cons_append, lookup_cons_eq]
    by_cases hb : k = k1
    · rw [if_pos hb] at h; exact absurd h (by simp)
    · rw [if_neg hb] at h
      rw [if_neg hb]
      exact ih h

theorem dictSet_of_lookup_none (m : List (String × EventRec)) (k : String) (v : EventRec)
    (h : m.lookup k = none) : dictSet m k v = m ++ [(k, v)] := by
  unfold dictSet
  rw [if_neg]
  rw [List.any_eq_true]
  rintro ⟨kv, hkv, hb⟩
  exact (lookup_eq_none_iff m k).mp h kv hkv (by simpa using hb)

theorem map_id_of_no_key (m : List (String × EventRec)) (k : String) (v2 : EventRec)
    (h : ∀ kv ∈ m, kv.1 ≠ k) :
    m.map (fun kv => if kv.1 == k then (k, v2) else kv) = m := by
  induction m with
  | nil => rfl
  | cons a rest ih =>
    have hb : (a.1 == k) = false := beq_eq_false_iff_ne.mpr (h a (List.mem_cons_self a rest))
    simp only [List.map_cons, hb, Bool.false_eq_true, if_false]
    rw [ih (fun kv hkv => h kv (List.mem_cons_of_mem a hkv))]

theorem dictSet_split (m : List (String × EventRec)) (k : String) (v v2 : EventRec)
    (hnd : (keysOf m).Nodup) (hl : m.lookup k = some v) :
    ∃ m1 m2, m = m1 ++ (k, v) :: m2 ∧ (∀ kv ∈ m1, kv.1 ≠ k) ∧ (∀ kv ∈ m2, kv.1 ≠ k) ∧
      dictSet m k v2 = m1 ++ (k, v2) :: m2 := by
  induction m with
  | nil => simp at hl
  | cons a rest ih =>
    obtain ⟨k1, v1⟩ := a
    have hnd2 : (keysOf rest).Nodup := (List.nodup_cons.mp hnd).2
    have hk1 : k1 ∉ keysOf rest := (List.nodup_cons.mp hnd).1
    rw [lookup_cons_eq] at hl
    by_cases hb : k = k1
    · rw [if_pos hb] at hl
      obtain rfl := Option.some.inj hl
      subst hb
      refine ⟨[], rest, by simp, by simp, ?_, ?_⟩
      · intro kv hkv hc
        exact hk1 (hc ▸ List.mem_map.mpr ⟨kv, hkv, rfl⟩)
      · unfold dictSet
        rw [if_pos (by simp)]
        simp only [List.map_cons, beq_self_eq_true, if_true, List.nil_append]
        rw [map_id_of_no_key rest k v2
          (fun kv hkv hc => hk1 (hc ▸ List.mem_map.mpr ⟨kv, hkv, rfl⟩))]
    · rw [if_neg hb] at hl
      obtain ⟨m1, m2, hrest, hm1, hm2, hset⟩ := ih hnd2 hl
      refine ⟨(k1, v1) :: m1, m2, by rw [hrest, List.cons_append], ?_, hm2, ?_⟩
      · intro kv hkv
        rcases List.mem_cons.mp hkv with rfl | hkv
        · exact fun hc => hb hc.symm
        · exact hm1 kv hkv
      · have hany : rest.any (fun kv => kv.1 == k) = true :=
          List.any_eq_true.mpr ⟨(k, v), lookup_mem rest k v hl, by simp⟩
        have hb1 : (k1 == k) = false := beq_eq_false_iff_ne.mpr (fun hc => hb hc.symm)
        unfold dictSet
        rw [if_pos (by rw [List.any_cons]; rw [hany]; simp)]
        unfold dictSet at hset
        rw [if_pos hany] at hset
        simp only [List.map_cons, hb1, Bool.false_eq_true, if_false]
        rw [hset, List.cons_append]

theorem lookup_dictSet_self (m : List (String × EventRec)) (k : String) (v : EventRec)
    (hnd : (keysOf m).Nodup) : (dictSet m k v).lookup k = some v := by
  cases hl : m.lookup k with
  | none =>
    rw [dictSet_of_lookup_none m k v hl, lookup_append_none m _ k hl, lookup_cons_eq,
      if_pos rfl]
  | some v0 =>
    obtain ⟨m1, m2, hm, hm1, hm2, hset⟩ := dictSet_split m k v0 v hnd hl
    rw [hset]
    have h1 : m1.lookup k = none := (lookup_eq_none_iff m1 k).mpr hm1
    rw [lookup_append_none m1 _ k h1, lookup_cons_eq, if_pos rfl]

theorem lookup_dictSet_ne (m : List (String × EventRec)) (k k2 : String) (v : EventRec)
    (hnd : (keysOf m).Nodup) (hne : k2 ≠ k) :
    (dictSet m k v).lookup k2 = m.lookup k2 := by
  cases hl : m.lookup k with
  | none =>
    rw [dictSet_of_lookup_none m k v hl]
    cases hl2 : m.lookup k2 with
    | none =>
      rw [lookup_append_none m _ k2 hl2, lookup_cons_eq, if_neg hne]
      rfl
    | some v0 => exact lookup_append_some m _ k2 v0 hl2
  | some v0 =>
    obtain ⟨m1, m2, hm, hm1, hm2, hset⟩ := dictSet_split m k v0 v hnd hl
    rw [hset, hm]
    cases hl1 : m1.lookup k2 with
    | some w =>
      rw [lookup_append_some _ _ _ _ hl1, lookup_append_some _ _ _ _ hl1]
    | none =>
      rw [lookup_append_none _ _ _ hl1, lookup_append_none _ _ _ hl1,
        lookup_cons_eq, lookup_cons_eq, if_neg hne, if_neg hne]

theorem keysOf_dictSet_some (m : List (String × EventRec)) (k : String) (v v2 : EventRec)
    (hnd : (keysOf m).Nodup) (hl : m.lookup k = some v) :
    keysOf (dictSet m k v2) = keysOf m := by
  obtain ⟨m1, m2, hm, hm1, hm2, hset⟩ := dictSet_split m k v v2 hnd hl
  rw [hset, hm]
  simp [keysOf]

theorem keysOf_dictSet_none (m : List (String × EventRec)) (k : String) (v : EventRec)
    (hl : m.lookup k = none) : keysOf (dictSet m k v) = keysOf m ++ [k] := by
  rw [dictSet_of_lookup_none m k v hl]
  simp [keysOf]

theorem dictSet_wf (m : List (String × EventRec)) (k : String) (v : EventRec)
    (hwf : MapWF m) (hid : v.id = k) : MapWF (dictSet m k v) := by
  obtain ⟨hnd, hids⟩ := hwf
  cases hl : m.lookup k with
  | none =>
    constructor
    · rw [keysOf_dictSet_none m k v hl]
      rw [List.nodup_append]
      refine ⟨hnd, List.nodup_singleton k, ?_⟩
      intro x hx hx2
      simp only [List.mem_singleton] at hx2
      subst hx2
      obtain ⟨kv, hkv, hkv2⟩ := List.mem_map.mp hx
      exact (lookup_eq_none_iff m x).mp hl kv hkv hkv2
    · rw [dictSet_of_lookup_none m k v hl]
      intro kv hkv
      rcases List.mem_append.mp hkv with hkv | hkv
      · exact hids kv hkv
      · simp only [List.mem_singleton] at hkv
        subst hkv
        exact hid
  | some v0 =>
    obtain ⟨m1, m2, hm, hm1, hm2, hset⟩ := dictSet_split m k v0 v hnd hl
    constructor
    · rw [keysOf_dictSet_some m k v0 v hnd hl]
      exact hnd
    · rw [hset]
      intro kv hkv
      rcases List.mem_append.mp hkv with hkv | hkv
      · refine hids kv ?_
        rw [hm]
        exact List.mem_append.mpr (Or.inl hkv)
      · rcases List.mem_cons.mp hkv with rfl | hkv
        · exact hid
        · refine hids kv ?_
          rw [hm]
          exact List.mem_append.mpr (Or.inr (List.mem_cons_of_mem _ hkv))

/-! ### Source-id accounting -/

/-- The multiset of all source ids of a list of events. -/
def idsMS (l : List EventRec) : Multiset String :=
  (allSourceIds l : List String)

/-- The multiset of all source ids of the values of the dict. -/
def mapIds (m : List (String × EventRec)) : Multiset String :=
  idsMS (valuesOf m)

theorem idsMS_append (l1 l2 : List EventRec) : idsMS (l1 ++ l2) = idsMS l1 + idsMS l2 := by
  unfold idsMS allSourceIds
  rw [List.flatMap_append, ← Multiset.coe_add]

theorem idsMS_cons (e : EventRec) (l : List EventRec) :
    idsMS (e :: l) = (sourceIds e : List String) + idsMS l := by
  unfold idsMS allSourceIds
  rw [List.flatMap_cons, ← Multiset.coe_add]

theorem idsMS_nil : idsMS [] = 0 := rfl

theorem idsMS_singleton (e : EventRec) : idsMS [e] = (sourceIds e : List String) := by
  rw [idsMS_cons, idsMS_nil, add_zero]

theorem valuesOf_append (m1 m2 : List (String × EventRec)) :
    valuesOf (m1 ++ m2) = valuesOf m1 ++ valuesOf m2 := by
  simp [valuesOf]

theorem valuesOf_cons (kv : String × EventRec) (m : List (String × EventRec)) :
    valuesOf (kv :: m) = kv.2 :: valuesOf m := rfl

theorem filterFreshSources_spec (srcs : List EventSource) :
    ∀ seen : List String,
      (filterFreshSources seen srcs).2 =
        seen ++ ((filterFreshSources seen srcs).1.map (fun s => s.id)) ∧
      ((filterFreshSources seen srcs).1.map (fun s => s.id)).Nodup ∧
      (∀ sid ∈ (filterFreshSources seen srcs).1.map (fun s => s.id), sid ∉ seen) := by
  induction srcs with
  | nil => intro seen; simp [filterFreshSources]
  | cons s rest ih =>
    intro seen
    by_cases hs : s.id ∈ seen
    · simpa [filterFreshSources, hs] using ih seen
    · obtain ⟨ih1, ih2, ih3⟩ := ih (seen ++ [s.id])
      simp only [filterFreshSources, if_neg hs]
      refine ⟨?_, ?_, ?_⟩
      · simp only [List.map_cons]
        rw [ih1, List.append_assoc, List.singleton_append]
      · simp only [List.map_cons]
        rw [List.nodup_cons]
        constructor
        · intro hc
          exact ih3 s.id hc (List.mem_append.mpr (Or.inr (List.mem_singleton.mpr rfl)))
        · exact ih2
      · simp only [List.map_cons, List.mem_cons]
        rintro sid (rfl | hsid)
        · exact hs
        · exact fun hc => ih3 sid hsid (List.mem_append.mpr (Or.inl hc))

theorem seedSeen_eq (l : List EventRec) : seedSeen l = allSourceIds l := by
  suffices h : ∀ (l2 : List EventRec) (acc : List String),
      l2.foldl (fun acc e => acc ++ e.sources.map (fun s => s.id)) acc =
        acc ++ allSourceIds l2 by
    simpa using h l []
  intro l2
  induction l2 with
  | nil => intro acc; simp [allSourceIds]
  | cons e rest ih =>
    intro acc
    rw [List.foldl_cons, ih]
    show acc ++ List.map (fun s => s.id) e.sources ++ rest.flatMap sourceIds =
      acc ++ (e :: rest).flatMap sourceIds
    rw [List.flatMap_cons, ← List.append_assoc]
    rfl

theorem mapIds_dictSet_le (m : List (String × EventRec)) (k : String) (v : EventRec)
    (hnd : (keysOf m).Nodup) :
    mapIds (dictSet m k v) ≤ mapIds m + (sourceIds v : List String) := by
  cases hl : m.lookup k with
  | none =>
    rw [dictSet_of_lookup_none m k v hl]
    unfold mapIds
    rw [valuesOf_append, idsMS_append]
    rw [show valuesOf [(k, v)] = [v] from rfl, idsMS_singleton]
  | some v0 =>
    obtain ⟨m1, m2, hm, hm1, hm2, hset⟩ := dictSet_split m k v0 v hnd hl
    rw [hset, hm]
    unfold mapIds
    rw [valuesOf_append, valuesOf_append, valuesOf_cons, valuesOf_cons,
      idsMS_append, idsMS_append, idsMS_cons, idsMS_cons]
    have h1 : idsMS (valuesOf m1) + ((sourceIds v : List String) + idsMS (valuesOf m2)) =
        idsMS (valuesOf m1) + idsMS (valuesOf m2) + (sourceIds v : List String) := by
      abel
    have h2 : idsMS (valuesOf m1) + ((sourceIds v0 : List String) + idsMS (valuesOf m2)) +
        (sourceIds v : List String) =
        idsMS (valuesOf m1) + idsMS (valuesOf m2) + (sourceIds v : List String) +
          (sourceIds v0 : List String) := by
      abel
    rw [h1, h2]
    exact self_le_add_right _ _

theorem existing_by_id_wf (l : List EventRec) : MapWF (existing_by_id_of l) := by
  suffices h : ∀ (l2 : List EventRec) (m : List (String × EventRec)), MapWF m →
      MapWF (l2.foldl (fun m e => dictSet m e.id e) m) by
    exact h l [] ⟨List.nodup_nil, by simp⟩
  intro l2
  induction l2 with
  | nil => intro m hm; simpa using hm
  | cons e rest ih =>
    intro m hm
    rw [List.foldl_cons]
    exact ih (dictSet m e.id e) (dictSet_wf m e.id e hm rfl)

theorem existing_by_id_ids_le (l : List EventRec) :
    mapIds (existing_by_id_of l) ≤ idsMS l := by
  suffices h : ∀ (l2 : List EventRec) (m : List (String × EventRec)), MapWF m →
      mapIds (l2.foldl (fun m e => dictSet m e.id e) m) ≤ mapIds m + idsMS l2 by
    have := h l [] ⟨List.nodup_nil, by simp⟩
    simpa [mapIds, valuesOf, idsMS_nil] using this
  intro l2
  induction l2 with
  | nil => intro m hm; simp [idsMS_nil]
  | cons e rest ih =>
    intro m hm
    rw [List.foldl_cons]
    calc mapIds (rest.foldl (fun m e => dictSet m e.id e) (dictSet m e.id e)) ≤
        mapIds (dictSet m e.id e) + idsMS rest :=
          ih (dictSet m e.id e) (dictSet_wf m e.id e hm rfl)
      _ ≤ (mapIds m + (sourceIds e : List String)) + idsMS rest :=
          add_le_add_right (mapIds_dictSet_le m e.id e hm.1) _
      _ = mapIds m + idsMS (e :: rest) := by rw [idsMS_cons]; abel

theorem existing_by_id_of_eq (l : List EventRec)
    (hnd : (l.map (fun e => e.id)).Nodup) :
    existing_by_id_of l = l.map (fun e => (e.id, e)) := by
  suffices h : ∀ (l2 : List EventRec) (m : List (String × EventRec)),
      (l2.map (fun e => e.id)).Nodup →
      (∀ e ∈ l2, m.lookup e.id = none) →
      l2.foldl (fun m e => dictSet m e.id e) m = m ++ l2.map (fun e => (e.id, e)) by
    simpa using h l [] hnd (by simp)
  intro l2
  induction l2 with
  | nil => intro m _ _; simp
  | cons e rest ih =>
    intro m hnd2 hnone
    rw [List.foldl_cons, dictSet_of_lookup_none m e.id e (hnone e (List.mem_cons_self e rest))]
    rw [ih (m ++ [(e.id, e)]) (List.nodup_cons.mp (by simpa using hnd2)).2 ?_]
    · simp
    · intro e2 he2
      rw [lookup_eq_none_iff]
      intro kv hkv
      rcases List.mem_append.mp hkv with hkv | hkv
      · exact (lookup_eq_none_iff m e2.id).mp (hnone e2 (List.mem_cons_of_mem e he2)) kv hkv
      · simp only [List.mem_singleton] at hkv
        subst hkv
        intro hc
        have : e2.id ∈ rest.map (fun e => e.id) := List.mem_map.mpr ⟨e2, he2, rfl⟩
        rw [← hc] at this
        exact (List.nodup_cons.mp (by simpa using hnd2)).1 this

theorem lookup_map_self (l : List EventRec) (hnd : (l.map (fun e => e.id)).Nodup)
    (e : EventRec) (he : e ∈ l) :
    (l.map (fun e2 => (e2.id, e2))).lookup e.id = some e := by
  induction l with
  | nil => simp at he
  | cons e0 rest ih =>
    rw [List.map_cons, lookup_cons_eq]
    rcases List.mem_cons.mp he with rfl | he2
    · rw [if_pos rfl]
    · by_cases hb : e.id = e0.id
      · exfalso
        have : e.id ∈ rest.map (fun e2 => e2.id) := List.mem_map.mpr ⟨e, he2, rfl⟩
        rw [hb] at this
        exact (List.nodup_cons.mp (by simpa using hnd)).1 this
      · rw [if_neg hb]
        exact ih (List.nodup_cons.mp (by simpa using hnd)).2 he2

/-! ### Per-event evolution through the merge -/

/-- How one persisted event may evolve in one reconcile call: severity
and effective last_updated never decrease, timestamp never changes. -/
def EvolR (e e2 : EventRec) : Prop :=
  e.severity ≤ e2.severity ∧
  e.last_updated.getD e.timestamp ≤ e2.last_updated.getD e2.timestamp ∧
  e2.timestamp = e.timestamp

theorem evolR_refl (e : EventRec) : EvolR e e :=
  ⟨le_refl _, le_refl _, rfl⟩

theorem evolR_trans (a b c : EventRec) (h1 : EvolR a b) (h2 : EvolR b c) : EvolR a c :=
  ⟨h1.1.trans h2.1, h1.2.1.trans h2.2.1, h2.2.2.trans h1.2.2⟩

/-- Replacing one entry of a well-formed dict: well-formedness is kept,
the id multiset grows by exactly the new value's extra ids, and every
lookup either is untouched or sees exactly the replacement. -/
theorem dictSet_replace_master (m : List (String × EventRec)) (k0 : String)
    (existing ex2 : EventRec) (hwf : MapWF m) (hl : m.lookup k0 = some existing)
    (hid : ex2.id = existing.id) (freshIds : List String)
    (hids : ((sourceIds ex2 : List String) : Multiset String) =
      (sourceIds existing : List String) + (freshIds : Multiset String)) :
    MapWF (dictSet m k0 ex2) ∧
    mapIds (dictSet m k0 ex2) = mapIds m + (freshIds : Multiset String) ∧
    ∀ k v, m.lookup k = some v →
      ∃ v2, (dictSet m k0 ex2).lookup k = some v2 ∧
        (v2 = v ∨ (k = k0 ∧ v = existing ∧ v2 = ex2)) := by
  have hk0 : existing.id = k0 := hwf.2 (k0, existing) (lookup_mem m k0 existing hl)
  refine ⟨dictSet_wf m k0 ex2 hwf (hid.trans hk0), ?_, ?_⟩
  · obtain ⟨m1, m2, hm, hm1, hm2, hset⟩ := dictSet_split m k0 existing ex2 hwf.1 hl
    rw [hset, hm]
    unfold mapIds
    rw [valuesOf_append, valuesOf_append, valuesOf_cons, valuesOf_cons,
      idsMS_append, idsMS_append, idsMS_cons, idsMS_cons, hids]
    abel
  · intro k v hkv
    by_cases hk : k = k0
    · subst hk
      rw [hl] at hkv
      obtain rfl := Option.some.inj hkv
      exact ⟨ex2, lookup_dictSet_self m k ex2 hwf.1, Or.inr ⟨rfl, rfl, rfl⟩⟩
    · exact ⟨v, (lookup_dictSet_ne m k0 k ex2 hwf.1 hk).trans hkv, Or.inl rfl⟩

/-- The merge-state invariant: a well-formed map whose source ids are
globally duplicate-free and all recorded in the seen set. -/
def StInv (st : MergeState) : Prop :=
  MapWF st.map ∧ ∀ sid ∈ mapIds st.map, sid ∈ st.seen

theorem mergeStep_master (st : MergeState) (event : GeoEvent) (hinv : StInv st) :
    StInv (mergeStep st event) ∧
    ((mapIds st.map).Nodup → (mapIds (mergeStep st event).map).Nodup) ∧
    ∀ k v, st.map.lookup k = some v →
      ∃ v2, (mergeStep st event).map.lookup k = some v2 ∧ EvolR v v2 := by
  obtain ⟨hwf, hseen⟩ := hinv
  obtain ⟨hs1, hs2, hs3⟩ := filterFreshSources_spec event.toDict.sources st.seen
  have hfreshdisj : ∀ sid ∈ ((filterFreshSources st.seen event.toDict.sources).1.map
      (fun s => s.id)), sid ∉ mapIds st.map :=
    fun sid hsid hc => hs3 sid hsid (hseen sid hc)
  have hseen2 : ∀ sid ∈ mapIds st.map,
      sid ∈ (filterFreshSources st.seen event.toDict.sources).2 := by
    intro sid hsid
    rw [hs1]
    exact List.mem_append.mpr (Or.inl (hseen sid hsid))
  unfold mergeStep
  split
  next k0 hmk =>
    cases hlk : st.map.lookup k0 with
    | none =>
      dsimp only
      exact ⟨⟨hwf, hseen⟩, fun h => h, fun k v hkv => ⟨v, hkv, evolR_refl v⟩⟩
    | some existing =>
      dsimp only
      by_cases hempty : (filterFreshSources st.seen event.toDict.sources).1 = []
      · rw [if_pos hempty]
        exact ⟨⟨hwf, hseen2⟩, fun h => h, fun k v hkv => ⟨v, hkv, evolR_refl v⟩⟩
      · rw [if_neg hempty]
        have hbranch : ∀ lsc : Option ℕ,
            StInv (MergeState.mk
              (dictSet st.map k0
                ({ existing with
                   sources :=
                     (existing.sources ++
                       (filterFreshSources st.seen event.toDict.sources).1).mergeSort
                         (fun a b => decide (a.timestamp ≤ b.timestamp)),
                   last_updated :=
                     some (max (existing.last_updated.getD existing.timestamp)
                       event.last_updated),
                   severity := max existing.severity event.severity,
                   last_synthesis_count := lsc }))
              (filterFreshSources st.seen event.toDict.sources).2
              (st.needs ++ [k0])) ∧
            ((mapIds st.map).Nodup → (mapIds (dictSet st.map k0
              ({ existing with
                 sources :=
                   (existing.sources ++
                     (filterFreshSources st.seen event.toDict.sources).1).mergeSort
                       (fun a b => decide (a.timestamp ≤ b.timestamp)),
                 last_updated :=
                   some (max (existing.last_updated.getD existing.timestamp)
                     event.last_updated),
                 severity := max existing.severity event.severity,
                 last_synthesis_count := lsc }))).Nodup) ∧
            ∀ k v, st.map.lookup k = some v →
              ∃ v2, (dictSet st.map k0
                ({ existing with
                   sources :=
                     (existing.sources ++
                       (filterFreshSources st.seen event.toDict.sources).1).mergeSort
                         (fun a b => decide (a.timestamp ≤ b.timestamp)),
                   last_updated :=
                     some (max (existing.last_updated.getD existing.timestamp)
                       event.last_updated),
                   severity := max existing.severity event.severity,
                   last_synthesis_count := lsc })).lookup k = some v2 ∧ EvolR v v2 := by
          intro lsc
          have hidseq : ((sourceIds ({ existing with
              sources :=
                (existing.sources ++
                  (filterFreshSources st.seen event.toDict.sources).1).mergeSort
                    (fun a b => decide (a.timestamp ≤ b.timestamp)),
              last_updated :=
                some (max (existing.last_updated.getD existing.timestamp) event.last_updated),
              severity := max existing.severity event.severity,
              last_synthesis_count := lsc }) : List String) : Multiset String) =
              (sourceIds existing : List String) +
                (((filterFreshSources st.seen event.toDict.sources).1.map (fun s => s.id) :
                  List String) : Multiset String) := by
            show ((((existing.sources ++
              (filterFreshSources st.seen event.toDict.sources).1).mergeSort
                (fun a b => decide (a.timestamp ≤ b.timestamp))).map (fun s => s.id) :
                  List String) : Multiset String) = _
            rw [Multiset.coe_eq_coe.mpr (List.Perm.map (fun s => s.id)
              (List.mergeSort_perm (existing.sources ++
                (filterFreshSources st.seen event.toDict.sources).1) _))]
            rw [List.map_append, ← Multiset.coe_add]
            rfl
          obtain ⟨hwf2, hids2, hlook2⟩ :=
            dictSet_replace_master st.map k0 existing
              ({ existing with
                 sources :=
                   (existing.sources ++
                     (filterFreshSources st.seen event.toDict.sources).1).mergeSort
                       (fun a b => decide (a.timestamp ≤ b.timestamp)),
                 last_updated :=
                   some (max (existing.last_updated.getD existing.timestamp)
                     event.last_updated),
                 severity := max existing.severity event.severity,
                 last_synthesis_count := lsc })
              hwf hlk rfl
              ((filterFreshSources st.seen event.toDict.sources).1.map (fun s => s.id)) hidseq
          have hevol : EvolR existing ({ existing with
              sources :=
                (existing.sources ++
                  (filterFreshSources st.seen event.toDict.sources).1).mergeSort
                    (fun a b => decide (a.timestamp ≤ b.timestamp)),
              last_updated :=
                some (max (existing.last_updated.getD existing.timestamp) event.last_updated),
              severity := max existing.severity event.severity,
              last_synthesis_count := lsc }) :=
            ⟨le_max_left _ _, le_max_left _ _, rfl⟩
          refine ⟨⟨hwf2, ?_⟩, ?_, ?_⟩
          · show ∀ sid ∈ mapIds (dictSet st.map k0 _), _
            rw [hids2]
            intro sid hsid
            rcases Multiset.mem_add.mp hsid with hsid | hsid
            · exact hseen2 sid hsid
            · rw [hs1]
              exact List.mem_append.mpr (Or.inr (by exact_mod_cast hsid))
          · intro hnod
            rw [hids2, Multiset.nodup_add]
            refine ⟨hnod, Multiset.coe_nodup.mpr hs2, ?_⟩
            rw [Multiset.disjoint_left]
            intro a ha hc
            exact hfreshdisj a (by exact_mod_cast hc) ha
          · intro k v hkv
            obtain ⟨v2, hv2, hv2e⟩ := hlook2 k v hkv
            refine ⟨v2, hv2, ?_⟩
            rcases hv2e with rfl | ⟨rfl, rfl, rfl⟩
            · exact evolR_refl _
            · exact hevol
        by_cases hcount : 2 ≤
            (((existing.sources ++
              (filterFreshSources st.seen event.toDict.sources).1).length : ℤ) -
                (existing.last_synthesis_count.getD existing.sources.length : ℤ))
        · rw [if_pos hcount]
          exact hbranch (some (existing.sources ++
            (filterFreshSources st.seen event.toDict.sources).1).length)
        · rw [if_neg hcount]
          obtain ⟨h1, h2⟩ := hbranch existing.last_synthesis_count
          exact ⟨h1, h2⟩
  next hmk =>
    have hlid : st.map.lookup event.id = none := by
      cases hlk : st.map.lookup event.id with
      | none => rfl
      | some v0 => rw [hlk] at hmk; simp at hmk
    by_cases hempty : (filterFreshSources st.seen event.toDict.sources).1 = []
    · rw [if_pos hempty]
      exact ⟨⟨hwf, hseen2⟩, fun h => h, fun k v hkv => ⟨v, hkv, evolR_refl v⟩⟩
    · rw [if_neg hempty]
      have heq : dictSet st.map event.id
          ({ event.toDict with
             sources := (filterFreshSources st.seen event.toDict.sources).1 }) =
          st.map ++ [(event.id,
            { event.toDict with
              sources := (filterFreshSources st.seen event.toDict.sources).1 })] :=
        dictSet_of_lookup_none _ _ _ hlid
      have hids : mapIds (dictSet st.map event.id
          ({ event.toDict with
             sources := (filterFreshSources st.seen event.toDict.sources).1 })) =
          mapIds st.map + (((filterFreshSources st.seen event.toDict.sources).1.map
            (fun s => s.id) : List String) : Multiset String) := by
        rw [heq]
        unfold mapIds
        rw [valuesOf_append, idsMS_append]
        congr 1
        rw [show (valuesOf [(event.id,
          { event.toDict with
            sources := (filterFreshSources st.seen event.toDict.sources).1 })]) =
          [{ event.toDict with
             sources := (filterFreshSources st.seen event.toDict.sources).1 }] from rfl,
          idsMS_singleton]
        rfl
      refine ⟨⟨?_, ?_⟩, ?_, ?_⟩
      · exact dictSet_wf st.map event.id _ hwf rfl
      · show ∀ sid ∈ mapIds (dictSet st.map event.id _), _
        rw [hids]
        intro sid hsid
        rcases Multiset.mem_add.mp hsid with hsid | hsid
        · exact hseen2 sid hsid
        · rw [hs1]
          exact List.mem_append.mpr (Or.inr (by exact_mod_cast hsid))
      · intro hnod
        show (mapIds (dictSet st.map event.id _)).Nodup
        rw [hids, Multiset.nodup_add]
        refine ⟨hnod, Multiset.coe_nodup.mpr hs2, ?_⟩
        rw [Multiset.disjoint_left]
        intro a ha hc
        exact hfreshdisj a (by exact_mod_cast hc) ha
      · intro k v hkv
        have hk : k ≠ event.id := fun hc => by
          rw [hc, hlid] at hkv
          exact Option.noConfusion hkv
        refine ⟨v, ?_, evolR_refl v⟩
        rw [heq]
        exact lookup_append_some st.map _ k v hkv

theorem synthStep_master (oracle : ℕ → Option SynthesizedEvent)
    (m : List (String × EventRec)) (ik : ℕ × String) (hwf : MapWF m) :
    MapWF (synthStep oracle m ik) ∧
    mapIds (synthStep oracle m ik) = mapIds m ∧
    ∀ k v, m.lookup k = some v →
      ∃ v2, (synthStep oracle m ik).lookup k = some v2 ∧ EvolR v v2 := by
  unfold synthStep
  cases oracle ik.1 with
  | none => exact ⟨hwf, rfl, fun k v hkv => ⟨v, hkv, evolR_refl v⟩⟩
  | some synthesized =>
    cases hlk : m.lookup ik.2 with
    | none => exact ⟨hwf, rfl, fun k v hkv => ⟨v, hkv, evolR_refl v⟩⟩
    | some ev =>
      have hids : ((sourceIds ({ ev with
          title := synthesized.title,
          summary := synthesized.summary,
          fallout_prediction :=
            if synthesized.fallout_prediction ≠ "" then synthesized.fallout_prediction
            else ev.fallout_prediction,
          severity :=
            if ev.severity < synthesized.severity then synthesized.severity
            else ev.severity }) : List String) : Multiset String) =
          (sourceIds ev : List String) + (([] : List String) : Multiset String) := by
        rw [show (([] : List String) : Multiset String) = 0 from rfl, add_zero]
        rfl
      obtain ⟨hwf2, hids2, hlook2⟩ :=
        dictSet_replace_master m ik.2 ev
          ({ ev with
             title := synthesized.title,
             summary := synthesized.summary,
             fallout_prediction :=
               if synthesized.fallout_prediction ≠ "" then synthesized.fallout_prediction
               else ev.fallout_prediction,
             severity :=
               if ev.severity < synthesized.severity then synthesized.severity
               else ev.severity })
          hwf hlk rfl [] hids
      have hevol : EvolR ev ({ ev with
          title := synthesized.title,
          summary := synthesized.summary,
          fallout_prediction :=
            if synthesized.fallout_prediction ≠ "" then synthesized.fallout_prediction
            else ev.fallout_prediction,
          severity :=
            if ev.severity < synthesized.severity then synthesized.severity
            else ev.severity }) := by
        refine ⟨?_, le_refl _, rfl⟩
        by_cases h : ev.severity < synthesized.severity
        · rw [if_pos h]; exact le_of_lt h
        · rw [if_neg h]
      refine ⟨hwf2, ?_, ?_⟩
      · rw [hids2]
        rw [show (([] : List String) : Multiset String) = 0 from rfl, add_zero]
      · intro k v hkv
        obtain ⟨v2, hv2, hv2e⟩ := hlook2 k v hkv
        refine ⟨v2, hv2, ?_⟩
        rcases hv2e with rfl | ⟨rfl, rfl, rfl⟩
        · exact evolR_refl _
        · exact hevol

theorem applySynth_master (map0 : List (String × EventRec)) (needs : List String)
    (client : Bool) (oracle : ℕ → Option SynthesizedEvent) (hwf : MapWF map0) :
    MapWF (applySynth map0 needs client oracle) ∧
    mapIds (applySynth map0 needs client oracle) = mapIds map0 ∧
    ∀ k v, map0.lookup k = some v →
      ∃ v2, (applySynth map0 needs client oracle).lookup k = some v2 ∧ EvolR v v2 := by
  unfold applySynth
  by_cases h : needs = [] ∨ client = false
  · rw [if_pos h]
    exact ⟨hwf, rfl, fun k v hkv => ⟨v, hkv, evolR_refl v⟩⟩
  · rw [if_neg h]
    suffices hgen : ∀ (pairs : List (ℕ × String)) (m : List (String × EventRec)), MapWF m →
        MapWF (pairs.foldl (synthStep oracle) m) ∧
        mapIds (pairs.foldl (synthStep oracle) m) = mapIds m ∧
        ∀ k v, m.lookup k = some v →
          ∃ v2, (pairs.foldl (synthStep oracle) m).lookup k = some v2 ∧ EvolR v v2 by
      exact hgen needs.enum map0 hwf
    intro pairs
    induction pairs with
    | nil => intro m hm; exact ⟨hm, rfl, fun k v hkv => ⟨v, hkv, evolR_refl v⟩⟩
    | cons ik rest ih =>
      intro m hm
      rw [List.foldl_cons]
      obtain ⟨hw1, hi1, hl1⟩ := synthStep_master oracle m ik hm
      obtain ⟨hw2, hi2, hl2⟩ := ih (synthStep oracle m ik) hw1
      refine ⟨hw2, hi2.trans hi1, ?_⟩
      intro k v hkv
      obtain ⟨v1, hv1, he1⟩ := hl1 k v hkv
      obtain ⟨v2, hv2, he2⟩ := hl2 k v1 hv1
      exact ⟨v2, hv2, evolR_trans v v1 v2 he1 he2⟩

theorem foldl_mergeStep_master (news : List GeoEvent) :
    ∀ st : MergeState, StInv st →
      StInv (news.foldl mergeStep st) ∧
      ((mapIds st.map).Nodup → (mapIds (news.foldl mergeStep st).map).Nodup) ∧
      ∀ k v, st.map.lookup k = some v →
        ∃ v2, (news.foldl mergeStep st).map.lookup k = some v2 ∧ EvolR v v2 := by
  induction news with
  | nil => intro st hst; exact ⟨hst, fun h => h, fun k v hkv => ⟨v, hkv, evolR_refl v⟩⟩
  | cons ev rest ih =>
    intro st hst
    rw [List.foldl_cons]
    obtain ⟨hst1, hnd1, hl1⟩ := mergeStep_master st ev hst
    obtain ⟨hst2, hnd2, hl2⟩ := ih (mergeStep st ev) hst1
    refine ⟨hst2, fun h => hnd2 (hnd1 h), ?_⟩
    intro k v hkv
    obtain ⟨v1, hv1, he1⟩ := hl1 k v hkv
    obtain ⟨v2, hv2, he2⟩ := hl2 k v1 hv1
    exact ⟨v2, hv2, evolR_trans v v1 v2 he1 he2⟩

theorem merge_core_master (new_events : List GeoEvent) (existing_data : List EventRec)
    (client : Bool) (oracle : ℕ → Option SynthesizedEvent) :
    MapWF (merge_core new_events existing_data client oracle) ∧
    ((allSourceIds existing_data).Nodup →
      (mapIds (merge_core new_events existing_data client oracle)).Nodup) ∧
    ∀ k v, (existing_by_id_of existing_data).lookup k = some v →
      ∃ v2, (merge_core new_events existing_data client oracle).lookup k = some v2 ∧
        EvolR v v2 := by
  have hinv0 : StInv (MergeState.mk (existing_by_id_of existing_data)
      (seedSeen existing_data) []) := by
    refine ⟨existing_by_id_wf existing_data, ?_⟩
    intro sid hsid
    have h1 : sid ∈ idsMS existing_data :=
      Multiset.mem_of_le (existing_by_id_ids_le existing_data) hsid
    rw [seedSeen_eq]
    exact_mod_cast h1
  obtain ⟨hst1, hnd1, hl1⟩ := foldl_mergeStep_master new_events _ hinv0
  obtain ⟨hw2, hi2, hl2⟩ := applySynth_master
    (new_events.foldl mergeStep (MergeState.mk (existing_by_id_of existing_data)
      (seedSeen existing_data) [])).map
    (new_events.foldl mergeStep (MergeState.mk (existing_by_id_of existing_data)
      (seedSeen existing_data) [])).needs
    client oracle hst1.1
  unfold merge_core
  refine ⟨hw2, ?_, ?_⟩
  · intro hnod
    rw [hi2]
    refine hnd1 ?_
    have h1 : mapIds (existing_by_id_of existing_data) ≤ idsMS existing_data :=
      existing_by_id_ids_le existing_data
    exact Multiset.nodup_of_le h1 (Multiset.coe_nodup.mpr hnod)
  · intro k v hkv
    obtain ⟨v1, hv1, he1⟩ := hl1 k v hkv
    obtain ⟨v2, hv2, he2⟩ := hl2 k v1 hv1
    exact ⟨v2, hv2, evolR_trans v v1 v2 he1 he2⟩

theorem sublist_flatMap (f : EventRec → List String) {l1 l2 : List EventRec}
    (h : l1.Sublist l2) : (l1.flatMap f).Sublist (l2.flatMap f) := by
  induction h with
  | slnil => simp
  | cons a h ih =>
    rw [List.flatMap_cons]
    exact ih.trans (List.sublist_append_right _ _)
  | cons₂ a h ih =>
    rw [List.flatMap_cons, List.flatMap_cons]
    exact List.Sublist.append (List.Sublist.refl _) ih

theorem subperm_idsMS_le {l1 l2 : List EventRec} (h : l1.Subperm l2) :
    idsMS l1 ≤ idsMS l2 := by
  obtain ⟨l', hperm, hsub⟩ := h
  have h1 : idsMS l' = idsMS l1 := by
    unfold idsMS allSourceIds
    exact Multiset.coe_eq_coe.mpr (List.Perm.flatMap_right sourceIds hperm)
  rw [← h1]
  unfold idsMS allSourceIds
  exact Multiset.coe_le.mpr (sublist_flatMap sourceIds hsub).subperm

theorem merged_subperm_values (new_events : List GeoEvent) (existing_data : List EventRec)
    (client : Bool) (oracle : ℕ → Option SynthesizedEvent) :
    (merge_with_existing new_events existing_data client oracle).Subperm
      (valuesOf (merge_core new_events existing_data client oracle)) := by
  unfold merge_with_existing
  refine List.Subperm.trans ((List.take_sublist _ _).subperm) ?_
  exact (List.mergeSort_perm _ _).subperm

/-- Claim C2: merge_with_existing enforces global source-id
de-duplication: assuming the persisted input set carries no duplicate
source ids, a source id already present anywhere in the set (or
appended earlier in the same call) is never appended again, so the
merged output carries no duplicate source id globally — in particular
every event's source list stays free of duplicate ids, and merging the
same incident a second time cannot duplicate any source. -/
theorem merge_with_existing_source_id_dedup (new_events : List GeoEvent)
    (existing_data : List EventRec) (client : Bool)
    (oracle : ℕ → Option SynthesizedEvent)
    (hnd : (allSourceIds existing_data).Nodup) :
    (allSourceIds (merge_with_existing new_events existing_data client oracle)).Nodup ∧
    ∀ e ∈ merge_with_existing new_events existing_data client oracle,
      (e.sources.map (fun s => s.id)).Nodup := by
  have hcore : (mapIds (merge_core new_events existing_data client oracle)).Nodup :=
    (merge_core_master new_events existing_data client oracle).2.1 hnd
  have hsub := merged_subperm_values new_events existing_data client oracle
  have hle : idsMS (merge_with_existing new_events existing_data client oracle) ≤
      mapIds (merge_core new_events existing_data client oracle) :=
    subperm_idsMS_le hsub
  constructor
  · have : (idsMS (merge_with_existing new_events existing_data client oracle)).Nodup :=
      Multiset.nodup_of_le hle hcore
    exact Multiset.coe_nodup.mp this
  · intro e he
    have hmem : e ∈ valuesOf (merge_core new_events existing_data client oracle) :=
      hsub.subset he
    have h1 : ([e] : List EventRec).Sublist
        (valuesOf (merge_core new_events existing_data client oracle)) :=
      List.singleton_sublist.mpr hmem
    have h2 : idsMS [e] ≤ mapIds (merge_core new_events existing_data client oracle) :=
      subperm_idsMS_le h1.subperm
    have h3 : (idsMS [e]).Nodup := Multiset.nodup_of_le h2 hcore
    rw [idsMS_singleton] at h3
    exact Multiset.coe_nodup.mp h3

/-- Witness for the global de-duplication: a new incident re-carrying
an already persisted source id alongside one new source. -/
theorem merge_with_existing_source_id_dedup_witness :
    (allSourceIds (merge_with_existing
        [GeoEvent.mk "E1" "t2" "MILITARY" (30, 50) "Kyiv" "EUROPE" 5 "sum2" 50 150 "f2"
          [EventSource.mk "a" "h1" "s1" "Reuters" "u1" 100,
           EventSource.mk "b" "h2" "s2" "CNN" "u2" 50]]
        [EventRec.mk "E1" "t" "MILITARY" (30, 50) "Kyiv" "EUROPE" 7 "sum" 100 (some 100) "f"
          [EventSource.mk "a" "h1" "s1" "Reuters" "u1" 100] none]
        false (fun _ => none))).Nodup ∧
    ∀ e ∈ merge_with_existing
        [GeoEvent.mk "E1" "t2" "MILITARY" (30, 50) "Kyiv" "EUROPE" 5 "sum2" 50 150 "f2"
          [EventSource.mk "a" "h1" "s1" "Reuters" "u1" 100,
           EventSource.mk "b" "h2" "s2" "CNN" "u2" 50]]
        [EventRec.mk "E1" "t" "MILITARY" (30, 50) "Kyiv" "EUROPE" 7 "sum" 100 (some 100) "f"
          [EventSource.mk "a" "h1" "s1" "Reuters" "u1" 100] none]
        false (fun _ => none),
      (e.sources.map (fun s => s.id)).Nodup :=
  merge_with_existing_source_id_dedup _ _ _ _ (by with_unfolding_all decide)

/-- Claim C3: every persisted input event surviving a merge call keeps
its creation timestamp, while its severity and its effective
last_updated value are monotonically non-decreasing, including through
the re-synthesis pass. -/
theorem merge_with_existing_monotone (new_events : List GeoEvent)
    (existing_data : List EventRec) (client : Bool)
    (oracle : ℕ → Option SynthesizedEvent)
    (hnd : (existing_data.map (fun e => e.id)).Nodup) :
    ∀ e ∈ existing_data,
      ∀ e2 ∈ merge_with_existing new_events existing_data client oracle,
        e2.id = e.id →
          e.severity ≤ e2.severity ∧
          e.last_updated.getD e.timestamp ≤ e2.last_updated.getD e2.timestamp ∧
          e2.timestamp = e.timestamp := by
  intro e he e2 he2 hid
  have hl0 : (existing_by_id_of existing_data).lookup e.id = some e := by
    rw [existing_by_id_of_eq existing_data hnd]
    exact lookup_map_self existing_data hnd e he
  obtain ⟨v2, hv2, hevol⟩ :=
    (merge_core_master new_events existing_data client oracle).2.2 e.id e hl0
  have hwf : MapWF (merge_core new_events existing_data client oracle) :=
    (merge_core_master new_events existing_data client oracle).1
  have hmem : e2 ∈ valuesOf (merge_core new_events existing_data client oracle) :=
    (merged_subperm_values new_events existing_data client oracle).subset he2
  obtain ⟨kv, hkv, hkv2⟩ := List.mem_map.mp hmem
  have hkey : kv.1 = e2.id := by
    rw [← hkv2]
    exact (hwf.2 kv hkv).symm
  have hl2 : (merge_core new_events existing_data client oracle).lookup e2.id = some e2 := by
    have hkvp : kv = (e2.id, e2) := by
      rw [Prod.ext_iff]
      exact ⟨hkey, hkv2⟩
    exact mem_lookup_of_nodup _ e2.id e2 hwf.1 (hkvp ▸ hkv)
  rw [hid] at hl2
  rw [hv2] at hl2
  obtain rfl := Option.some.inj hl2
  exact hevol

/-- Witness for the monotonicity claim: one persisted event merged with
one matching incident of lower severity and later last_updated. -/
theorem merge_with_existing_monotone_witness :
    (7 : ℤ) ≤ (EventRec.mk "E1" "t" "MILITARY" (30, 50) "Kyiv" "EUROPE" 7 "sum" 100
        (some 150) "f"
        [EventSource.mk "b" "h2" "s2" "CNN" "u2" 50,
         EventSource.mk "a" "h1" "s1" "Reuters" "u1" 100] none).severity ∧
    ((100 : ℚ) ≤ (EventRec.mk "E1" "t" "MILITARY" (30, 50) "Kyiv" "EUROPE" 7 "sum" 100
        (some 150) "f"
        [EventSource.mk "b" "h2" "s2" "CNN" "u2" 50,
         EventSource.mk "a" "h1" "s1" "Reuters" "u1" 100] none).last_updated.getD 100) ∧
    (EventRec.mk "E1" "t" "MILITARY" (30, 50) "Kyiv" "EUROPE" 7 "sum" 100 (some 150) "f"
        [EventSource.mk "b" "h2" "s2" "CNN" "u2" 50,
         EventSource.mk "a" "h1" "s1" "Reuters" "u1" 100] none).timestamp = 100 := by
  have h := merge_with_existing_monotone
    [GeoEvent.mk "E1" "t2" "MILITARY" (30, 50) "Kyiv" "EUROPE" 5 "sum2" 50 150 "f2"
      [EventSource.mk "a" "h1" "s1" "Reuters" "u1" 100,
       EventSource.mk "b" "h2" "s2" "CNN" "u2" 50]]
    [EventRec.mk "E1" "t" "MILITARY" (30, 50) "Kyiv" "EUROPE" 7 "sum" 100 (some 100) "f"
      [EventSource.mk "a" "h1" "s1" "Reuters" "u1" 100] none]
    false (fun _ => none)
    (by with_unfolding_all decide)
    (EventRec.mk "E1" "t" "MILITARY" (30, 50) "Kyiv" "EUROPE" 7 "sum" 100 (some 100) "f"
      [EventSource.mk "a" "h1" "s1" "Reuters" "u1" 100] none)
    (by with_unfolding_all decide)
    (EventRec.mk "E1" "t" "MILITARY" (30, 50) "Kyiv" "EUROPE" 7 "sum" 100 (some 150) "f"
      [EventSource.mk "b" "h2" "s2" "CNN" "u2" 50,
       EventSource.mk "a" "h1" "s1" "Reuters" "u1" 100] none)
    (by with_unfolding_all decide)
    (by with_unfolding_all decide)
  exact h

theorem retention_desc_trans (a b c : EventRec)
    (hab : decide (retention_score b ≤ retention_score a) = true)
    (hbc : decide (retention_score c ≤ retention_score b) = true) :
    decide (retention_score c ≤ retention_score a) = true := by
  rw [decide_eq_true_eq] at hab hbc ⊢
  exact hbc.trans hab

theorem retention_desc_total (a b : EventRec) :
    (decide (retention_score b ≤ retention_score a) ||
      decide (retention_score a ≤ retention_score b)) = true := by
  rcases le_total (retention_score b) (retention_score a) with h | h <;> simp [h]

/-- Claim C4: merge_with_existing keeps at most MAX_EVENTS events — and
exactly MAX_EVENTS whenever more are available; every kept event is an
untouched member of the pre-eviction set (no per-event source-list
truncation); anything scoring strictly above some kept event is itself
kept, so the kept events are exactly the highest-ranked by retention
score; and the retention score is last_updated (falling back to
timestamp) plus the severity step bonus of 168, 120, 72, 48 or 0
hours. -/
theorem merge_with_existing_retention_policy (new_events : List GeoEvent)
    (existing_data : List EventRec) (client : Bool)
    (oracle : ℕ → Option SynthesizedEvent) :
    (merge_with_existing new_events existing_data client oracle).length =
      min MAX_EVENTS (valuesOf (merge_core new_events existing_data client oracle)).length ∧
    (∀ e ∈ merge_with_existing new_events existing_data client oracle,
      e ∈ valuesOf (merge_core new_events existing_data client oracle)) ∧
    (∀ d ∈ valuesOf (merge_core new_events existing_data client oracle),
      ∀ k ∈ merge_with_existing new_events existing_data client oracle,
        retention_score k < retention_score d →
          d ∈ merge_with_existing new_events existing_data client oracle) ∧
    (∀ e : EventRec, retention_score e =
      e.last_updated.getD e.timestamp +
        (if e.severity = 10 then (168 : ℚ) else if e.severity = 9 then 120
         else if e.severity = 8 then 72 else if e.severity = 7 then 48 else 0) * 3600) := by
  have hperm := List.mergeSort_perm
    ((merge_core new_events existing_data client oracle).map (fun kv => kv.2))
    (fun a b => decide (retention_score b ≤ retention_score a))
  refine ⟨?_, ?_, ?_, ?_⟩
  · unfold merge_with_existing
    rw [List.length_take, hperm.length_eq]
    rfl
  · intro e he
    unfold merge_with_existing at he
    exact hperm.subset (List.take_subset _ _ he)
  · intro d hd k hk hlt
    have hsorted := @List.sorted_mergeSort _
      (fun a b => decide (retention_score b ≤ retention_score a))
      retention_desc_trans retention_desc_total
      ((merge_core new_events existing_data client oracle).map (fun kv => kv.2))
    have hd2 : d ∈ ((merge_core new_events existing_data client oracle).map
        (fun kv => kv.2)).mergeSort
          (fun a b => decide (retention_score b ≤ retention_score a)) :=
      hperm.mem_iff.mpr hd
    rw [← List.take_append_drop MAX_EVENTS (((merge_core new_events existing_data client
      oracle).map (fun kv => kv.2)).mergeSort
        (fun a b => decide (retention_score b ≤ retention_score a)))] at hd2 hsorted
    rcases List.mem_append.mp hd2 with hd3 | hd3
    · unfold merge_with_existing
      exact hd3
    · exfalso
      have hk2 : k ∈ (((merge_core new_events existing_data client oracle).map
          (fun kv => kv.2)).mergeSort
            (fun a b => decide (retention_score b ≤ retention_score a))).take MAX_EVENTS := by
        unfold merge_with_existing at hk
        exact hk
      have hrel := (List.pairwise_append.mp hsorted).2.2 k hk2 d hd3
      rw [decide_eq_true_eq] at hrel
      exact absurd hrel (not_le.mpr hlt)
  · intro e
    by_cases h10 : e.severity = 10
    · simp [retention_score, SEVERITY_BONUS_HOURS, List.lookup, h10]
    · by_cases h9 : e.severity = 9
      · simp [retention_score, SEVERITY_BONUS_HOURS, List.lookup, h9]
      · by_cases h8 : e.severity = 8
        · simp [retention_score, SEVERITY_BONUS_HOURS, List.lookup, h8]
        · by_cases h7 : e.severity = 7
          · simp [retention_score, SEVERITY_BONUS_HOURS, List.lookup, h7]
          · have e10 : (e.severity == 10) = false := beq_eq_false_iff_ne.mpr h10
            have e9 : (e.severity == 9) = false := beq_eq_false_iff_ne.mpr h9
            have e8 : (e.severity == 8) = false := beq_eq_false_iff_ne.mpr h8
            have e7 : (e.severity == 7) = false := beq_eq_false_iff_ne.mpr h7
            simp [retention_score, SEVERITY_BONUS_HOURS, List.lookup, e10, e9, e8, e7,
              h10, h9, h8, h7]

end Realpolitik
